import Mathlib

/-!
# Verification of the syntactic refactoring core (lib/IDE/Refactoring.cpp)

A shallow embedding, in Lean 4, of the rename engine and the
callback-to-async converter of the repository's `lib/IDE/Refactoring.cpp`,
together with proofs settling the frozen claims about it.

Modelling conventions:
* Source text is `List Char`; a `CharSourceRange` is an `MRange`: a start
  offset into the original buffer plus the text it covers.  Byte lengths are
  modelled as character counts (all inputs of interest are ASCII).
* `llvm::StringRef` label values are `List Char` as well; `Optional<T>` is
  `Option T`; null pointers are `none`.
* `Lexer::getCharSourceRangeFromSourceRange` applied at the start of a label
  range lexes one token; for the identifier labels this engine receives it is
  modelled as the maximal run of identifier characters.
* C++ loops become structural or fuel/well-founded recursions; reads that
  would be out of bounds in C++ (assertion failures in the source's debug
  builds) are modelled as the enclosing operation reporting a mismatch, and
  are noted where they occur.
-/

/-! ## Basic text model -/

/-- A contiguous range of the original source buffer: its start offset and
the text it covers (`CharSourceRange` plus the buffer content under it). -/
structure MRange where
  start : Nat
  text : List Char
  deriving Repr, DecidableEq

/-- Sub-range of `r` beginning at relative offset `off` with length `len`. -/
def MRange.sub (r : MRange) (off len : Nat) : MRange :=
  { start := r.start + off, text := (r.text.drop off).take len }

/-- Zero-length range at relative offset `off` of `r`. -/
def MRange.zeroAt (r : MRange) (off : Nat) : MRange :=
  { start := r.start + off, text := [] }

/-- Model of Swift identifier characters (`Lexer` identifier continuation). -/
def isIdentChar (c : Char) : Bool :=
  c.isAlphanum || c = '_'

/-- The whitespace/comment-delimiter set used by
`splitAndRenameParamLabel` (`" \t\n\v\f\r/"`). -/
def isParamSeparatorChar (c : Char) : Bool :=
  c = ' ' || c = '\t' || c = '\n' || c = Char.ofNat 11 || c = Char.ofNat 12 ||
    c = '\r' || c = '/'

/-- The whitespace set trimmed by `llvm::StringRef::rtrim()`
(`" \t\n\v\f\r"`). -/
def isRTrimChar (c : Char) : Bool :=
  c = ' ' || c = '\t' || c = '\n' || c = Char.ofNat 11 || c = Char.ofNat 12 ||
    c = '\r'

/-! ## Enumerations of the rename engine -/

/-- `swift::ide::RefactoringRangeKind`. -/
inductive RefactoringRangeKind where
  | BaseName
  | KeywordBaseName
  | ParameterName
  | NoncollapsibleParameterName
  | DeclArgumentLabel
  | CallArgumentLabel
  | CallArgumentColon
  | CallArgumentCombined
  | SelectorArgumentLabel
  deriving Repr, DecidableEq

/-- `swift::ide::LabelRangeType`. -/
inductive LabelRangeType where
  | NoneT
  | CallArg
  | Param
  | NoncollapsibleParam
  | Selector
  deriving Repr, DecidableEq

/-- `swift::ide::NameUsage`. -/
inductive NameUsage where
  | Unknown
  | Reference
  | Call
  | Definition
  deriving Repr, DecidableEq

/-- `swift::ide::RegionType`. -/
inductive RegionType where
  | Unmatched
  | Mismatch
  | ActiveCode
  | InactiveCode
  | String
  | Selector
  | Comment
  deriving Repr, DecidableEq

/-- A compound declaration name (`DeclNameViewer`): base name plus ordered
argument labels; an empty list entry is an empty (`_`) label. -/
structure DeclNameViewer where
  base : List Char
  args : List (List Char)
  deriving Repr, DecidableEq

/-- One emission of the abstract `Renamer` interface: `doRenameLabel` or
`doRenameBase` with its arguments. -/
inductive RCall where
  | labelCall (range : MRange) (kind : RefactoringRangeKind) (index : Nat)
  | baseCall (range : MRange) (kind : RefactoringRangeKind)
  deriving Repr, DecidableEq

/-! ## Renamer: backtick stripping and label matching -/

/-- `Renamer::stripBackticks`: drop a matching pair of backticks enclosing
the whole range, if present. -/
def stripBackticks (r : MRange) : MRange :=
  if r.text.length < 3 ∨ ¬ r.text.head? = some '`' ∨
      ¬ r.text.getLast? = some '`' then
    r
  else
    { start := r.start + 1, text := (r.text.drop 1).take (r.text.length - 2) }

/-- `Renamer::getLeadingIdentifierRange`: whether the text begins with a
backtick escape, and the (unescaped) leading identifier token. -/
def getLeadingIdentifierRange (text : List Char) : Bool × List Char :=
  let isEscaped := text.head? = some '`'
  let body := if isEscaped then text.drop 1 else text
  (isEscaped, body.takeWhile isIdentChar)

/-- `Renamer::labelRangeMatches`: does the given label range text match the
expected old label? An empty range matches only an empty expected label; a
non-empty range's leading identifier must equal the expected label (or `_`
when the expected label is empty), except that a single-name
noncollapsible-parameter range also matches an empty expected label. -/
def labelRangeMatches (text : List Char) (ty : LabelRangeType)
    (expected : List Char) : Bool :=
  if text.length ≠ 0 then
    let p := getLeadingIdentifierRange text
    let isEscaped := p.1
    let existingLabel := p.2
    let isSingleName := text = existingLabel ||
      (isEscaped && text.length = existingLabel.length + 2)
    match ty with
    | LabelRangeType.NoncollapsibleParam =>
        (isSingleName && expected.isEmpty) ||
          existingLabel = (if expected.isEmpty then ['_'] else expected)
    | LabelRangeType.CallArg | LabelRangeType.Param
    | LabelRangeType.Selector =>
        existingLabel = (if expected.isEmpty then ['_'] else expected)
    | LabelRangeType.NoneT => false
  else
    expected.isEmpty

/-! ## Renamer: label splitting -/

/-- `Renamer::splitAndRenameParamLabel`: split a parameter range
`foo([a b]: Int)` into the declared argument label `[a]` and the parameter
name `[b]`; a single-name range `foo([a]: Int)` yields a zero-length
parameter-name range at its end (collapsible case) or a zero-length
argument-label range at its start (noncollapsible case). -/
def splitAndRenameParamLabel (r : MRange) (nameIndex : Nat)
    (isCollapsible : Bool) : List RCall :=
  let content := r.text
  match content.findIdx? isParamSeparatorChar with
  | none =>
      if isCollapsible then
        [RCall.labelCall r RefactoringRangeKind.DeclArgumentLabel nameIndex,
         RCall.labelCall (r.zeroAt content.length)
           RefactoringRangeKind.ParameterName nameIndex]
      else
        [RCall.labelCall (r.zeroAt 0)
           RefactoringRangeKind.DeclArgumentLabel nameIndex,
         RCall.labelCall r RefactoringRangeKind.NoncollapsibleParameterName
           nameIndex]
  | some externalNameEnd =>
      let ext := r.sub 0 externalNameEnd
      -- `find_last_of`: the last separator character's index; it exists
      -- because a first one does.
      let lastSep := content.length - 1 -
        ((content.reverse.findIdx? isParamSeparatorChar).getD 0)
      let localNameStart := if isCollapsible then lastSep else lastSep + 1
      let localR := r.sub localNameStart (content.length - localNameStart)
      [RCall.labelCall ext RefactoringRangeKind.DeclArgumentLabel nameIndex,
       RCall.labelCall localR
         (if isCollapsible then RefactoringRangeKind.ParameterName
          else RefactoringRangeKind.NoncollapsibleParameterName) nameIndex]

/-- `Renamer::splitAndRenameCallArg`: split a call argument range
`foo([a: ]1)` into the argument label `[a]` (with any whitespace before the
colon trimmed off its end) and the remainder `[: ]`; a range with no colon
(necessarily empty) is emitted as one combined range. -/
def splitAndRenameCallArg (r : MRange) (nameIndex : Nat) : List RCall :=
  let content := r.text
  match content.findIdx? (fun c => c = ':') with
  | none =>
      [RCall.labelCall r RefactoringRangeKind.CallArgumentCombined nameIndex]
  | some colonIdx =>
      let colon := ((content.take colonIdx).reverse.dropWhile
        isRTrimChar).length
      [RCall.labelCall (r.sub 0 colon) RefactoringRangeKind.CallArgumentLabel
         nameIndex,
       RCall.labelCall (r.sub colon (content.length - colon))
         RefactoringRangeKind.CallArgumentColon nameIndex]

/-- `Renamer::splitAndRenameLabel`: dispatch on the label range type. -/
def splitAndRenameLabel (r : MRange) (ty : LabelRangeType) (nameIndex : Nat) :
    List RCall :=
  match ty with
  | LabelRangeType.CallArg => splitAndRenameCallArg r nameIndex
  | LabelRangeType.Param => splitAndRenameParamLabel r nameIndex true
  | LabelRangeType.NoncollapsibleParam =>
      splitAndRenameParamLabel r nameIndex false
  | LabelRangeType.Selector =>
      [RCall.labelCall r RefactoringRangeKind.SelectorArgumentLabel nameIndex]
  | LabelRangeType.NoneT => []

/-! ## Renamer: lenient call-site label matching -/

/-- The backwards scan of `renameLabelsLenient`'s trailing-closure phase:
drop old labels from the back until one satisfies `p` (`while
(!p(OldNames.back())) drop_back`); `none` when the old labels run out.  On
success, returns the old labels before the matched one (the matched label's
index is the returned list's length). -/
def scanBackDrop (p : List Char → Bool) (old : List (List Char)) :
    Option (List (List Char)) :=
  match old.reverse.findIdx? p with
  | none => none
  | some revIdx => some (old.take (old.length - 1 - revIdx))

/-- One trailing-closure label of `renameLabelsLenient`, processed against
the remaining old labels; `isLabelIndexZero` is true for the syntactically
first trailing closure.  Returns the remaining old labels, or `none` on a
mismatch.  (For an unlabelled first trailing closure the source drops the
last old label unconditionally; `ArrayRef::drop_back` on an empty list is an
assertion failure in the source and is modelled as the empty list.) -/
def lenientTrailingStep (old : List (List Char)) (label : List Char)
    (isLabelIndexZero : Bool) : Option (List (List Char)) :=
  if label.length ≠ 0 then
    scanBackDrop
      (fun o => labelRangeMatches label LabelRangeType.Selector o) old
  else if ¬ isLabelIndexZero then
    scanBackDrop (fun o => o.isEmpty) old
  else
    some old.dropLast

/-- The trailing-closure phase of `renameLabelsLenient`: process the
trailing labels in reverse syntactic order (the input list here is already
reversed, so its last element is the syntactically first trailing label). -/
def lenientTrailingLoop (old : List (List Char)) :
    List (List Char) → Option (List (List Char))
  | [] => some old
  | [label] => lenientTrailingStep old label true
  | label :: rest =>
      match lenientTrailingStep old label false with
      | none => none
      | some old' => lenientTrailingLoop old' rest

/-- The forwards scan of `renameLabelsLenient`'s front phase: the smallest
index `j ≥ i` such that old label `j` satisfies `p` (`while (!p(old[i]))
++i` with its bound check), or `none` when the old labels are exhausted. -/
def scanFrom (old : List (List Char)) (p : List Char → Bool) (i : Nat) :
    Option Nat :=
  ((old.drop i).findIdx? p).map (i + ·)

/-- The non-trailing (front) phase of `renameLabelsLenient`, with the
running old-name index `i` (`NameIndex`).  Returns `(mismatch, emissions)`;
`mismatch = true` aborts the occurrence.  An empty label at `NameIndex == 0`
scans forward for the first empty old label and mismatches when there is
none (the source reads `OldNames[0]` unconditionally here; for empty
old-label lists that read is an assertion failure, modelled as a mismatch);
an empty label at a later position is consumed only if the old label at the
current index is itself empty, and is otherwise skipped as a
variadic/defaulted slot; a non-empty label scans forward for a matching old
label and mismatches when none remains. -/
def lenientFrontLoop (old : List (List Char)) (ty : LabelRangeType) :
    List MRange → Nat → Bool × List RCall
  | [], _ => (false, [])
  | label :: rest, i =>
    if label.text.length = 0 then
      if i = 0 then
        match scanFrom old (fun o => o.isEmpty) 0 with
        | none => (true, [])
        | some j =>
            let calls := splitAndRenameLabel label ty j
            let r := lenientFrontLoop old ty rest (j + 1)
            (r.1, calls ++ r.2)
      else if i ≥ old.length ∨ ¬ (old.getD i []).isEmpty then
        lenientFrontLoop old ty rest i
      else
        let calls := splitAndRenameLabel label ty i
        let r := lenientFrontLoop old ty rest (i + 1)
        (r.1, calls ++ r.2)
    else
      match scanFrom old (fun o => labelRangeMatches label.text ty o) i with
      | none => (true, [])
      | some j =>
          let calls := splitAndRenameLabel label ty j
          let r := lenientFrontLoop old ty rest (j + 1)
          (r.1, calls ++ r.2)

/-- Emissions of the trailing phase: each trailing label is emitted as a
selector label at the index of the old label it consumed (the remaining old
list's length after the scan).  Mirrors the `splitAndRenameLabel(Label,
Selector, OldNames.size() - 1)` calls of the source; returns the remaining
old labels and the emissions, or `none` on mismatch. -/
def lenientTrailingStepEmit (old : List (List Char)) (label : MRange)
    (isLabelIndexZero : Bool) : Option (List (List Char) × List RCall) :=
  if label.text.length ≠ 0 then
    match scanBackDrop
        (fun o => labelRangeMatches label.text LabelRangeType.Selector o)
        old with
    | none => none
    | some old' =>
        some (old', splitAndRenameLabel label LabelRangeType.Selector
          old'.length)
  else if ¬ isLabelIndexZero then
    match scanBackDrop (fun o => o.isEmpty) old with
    | none => none
    | some old' =>
        some (old', splitAndRenameLabel label LabelRangeType.Selector
          old'.length)
  else
    some (old.dropLast, [])

/-- Trailing phase with emissions (input reversed as in
`lenientTrailingLoop`). -/
def lenientTrailingLoopEmit (old : List (List Char)) :
    List MRange → Option (List (List Char) × List RCall)
  | [] => some (old, [])
  | [label] => lenientTrailingStepEmit old label true
  | label :: rest =>
      match lenientTrailingStepEmit old label false with
      | none => none
      | some (old', calls) =>
          match lenientTrailingLoopEmit old' rest with
          | none => none
          | some (old'', calls') => some (old'', calls ++ calls')

/-- `Renamer::renameLabelsLenient`: match a call site's label ranges
against the old compound name's labels.  Trailing-closure labels (from
`firstTrailingLabel` on) are matched first, against the old labels from the
back in reverse syntactic order; the remaining labels are then matched from
the front.  Returns `(mismatch, emissions)`. -/
def renameLabelsLenient (old : List (List Char)) (labelRanges : List MRange)
    (firstTrailingLabel : Option Nat) (ty : LabelRangeType) :
    Bool × List RCall :=
  match firstTrailingLabel with
  | some k =>
      let trailing := labelRanges.drop k
      let front := labelRanges.take k
      match lenientTrailingLoopEmit old trailing.reverse with
      | none => (true, [])
      | some (old', trailCalls) =>
          let r := lenientFrontLoop old' ty front 0
          (r.1, trailCalls ++ r.2)
  | none => lenientFrontLoop old ty labelRanges 0

/-! ## Renamer: strict label matching and base matching -/

/-- The strict loop of `Renamer::renameLabels`: each label range must match
the old label at its own index; emissions accumulate until a mismatch. -/
def renameLabelsStrictLoop (old : List (List Char)) (ty : LabelRangeType) :
    List MRange → Nat → Bool × List RCall
  | [], _ => (false, [])
  | label :: rest, i =>
      if ¬ labelRangeMatches label.text ty (old.getD i []) then
        (true, [])
      else
        let calls := splitAndRenameLabel label ty i
        let r := renameLabelsStrictLoop old ty rest (i + 1)
        (r.1, calls ++ r.2)

/-- `Renamer::renameLabels`: strict mode requires the label count to equal
the old name's label count and each label to match 1:1; call sites use the
lenient matcher.  Returns `(mismatch, emissions)`. -/
def renameLabels (old : List (List Char)) (labelRanges : List MRange)
    (firstTrailingLabel : Option Nat) (ty : LabelRangeType)
    (isCallSite : Bool) : Bool × List RCall :=
  if isCallSite then
    renameLabelsLenient old labelRanges firstTrailingLabel ty
  else if ¬ old.length = labelRanges.length then
    (true, [])
  else
    renameLabelsStrictLoop old ty labelRanges 0

/-- `Renamer::renameBase`: the (backtick-stripped) range text must equal
the old base name; on success one base emission is produced. -/
def renameBase (oldBase : List Char) (r : MRange)
    (kind : RefactoringRangeKind) : Bool × List RCall :=
  if ¬ (stripBackticks r).text = oldBase then
    (true, [])
  else
    (false, [RCall.baseCall r kind])

/-! ## TextReplacementsRenamer: computing text edits -/

/-- One accumulated text edit: a range of the original buffer and its
replacement text. -/
structure Replacement where
  range : MRange
  newText : List Char
  deriving Repr, DecidableEq

/-- `llvm::StringRef::ltrim()` on the default whitespace set. -/
def ltrimText (s : List Char) : List Char :=
  s.dropWhile isRTrimChar

/-- `TextReplacementsRenamer::getCallArgLabelReplacement`. -/
def getCallArgLabelReplacement (_oldLabelRange newLabel : List Char) :
    List Char :=
  if newLabel.isEmpty then [] else newLabel

/-- `TextReplacementsRenamer::getCallArgColonReplacement`. -/
def getCallArgColonReplacement (oldLabelRange newLabel : List Char) :
    List Char :=
  if newLabel.isEmpty then []
  else if oldLabelRange.isEmpty then [':', ' ']
  else oldLabelRange

/-- `TextReplacementsRenamer::getCallArgCombinedReplacement`. -/
def getCallArgCombinedReplacement (_oldArgLabel newArgLabel : List Char) :
    List Char :=
  if newArgLabel.isEmpty then [] else newArgLabel ++ [':', ' ']

/-- `TextReplacementsRenamer::getParamNameReplacement`. -/
def getParamNameReplacement (oldParam oldArgLabel newArgLabel : List Char) :
    List Char :=
  if ¬ newArgLabel.isEmpty ∧ ltrimText oldParam = newArgLabel then []
  else if newArgLabel.isEmpty ∧ ¬ oldArgLabel.isEmpty ∧ oldParam.isEmpty then
    ' ' :: oldArgLabel
  else oldParam

/-- `TextReplacementsRenamer::getDeclArgumentLabelReplacement`. -/
def getDeclArgumentLabelReplacement (oldLabelRange newArgLabel : List Char) :
    List Char :=
  if newArgLabel.isEmpty then
    if oldLabelRange.isEmpty then [] else ['_']
  else if oldLabelRange.isEmpty then newArgLabel ++ [' ']
  else newArgLabel

/-- `TextReplacementsRenamer::getReplacementText` (the base-name kinds are
unreachable here in the source; they are mapped to the unchanged text). -/
def getReplacementText (labelRange : List Char) (kind : RefactoringRangeKind)
    (oldLabel newLabel : List Char) : List Char :=
  match kind with
  | RefactoringRangeKind.CallArgumentLabel =>
      getCallArgLabelReplacement labelRange newLabel
  | RefactoringRangeKind.CallArgumentColon =>
      getCallArgColonReplacement labelRange newLabel
  | RefactoringRangeKind.CallArgumentCombined =>
      getCallArgCombinedReplacement labelRange newLabel
  | RefactoringRangeKind.ParameterName =>
      getParamNameReplacement labelRange oldLabel newLabel
  | RefactoringRangeKind.NoncollapsibleParameterName => labelRange
  | RefactoringRangeKind.DeclArgumentLabel =>
      getDeclArgumentLabelReplacement labelRange newLabel
  | RefactoringRangeKind.SelectorArgumentLabel =>
      if newLabel.isEmpty then ['_'] else newLabel
  | _ => labelRange

/-- `TextReplacementsRenamer::addReplacement`: record an edit only when the
computed replacement text differs from the range's existing text. -/
def addReplacement (labelRange : MRange) (kind : RefactoringRangeKind)
    (oldLabel newLabel : List Char) : List Replacement :=
  let existing := labelRange.text
  let text := getReplacementText existing kind oldLabel newLabel
  if ¬ text = existing then [{ range := labelRange, newText := text }] else []

/-- `TextReplacementsRenamer::doRenameLabel` / `doRenameBase`: map one
abstract emission to its text edits (a base edit is recorded only when the
base name actually changes). -/
def replacementsOfCall (old new : DeclNameViewer) (c : RCall) :
    List Replacement :=
  match c with
  | RCall.labelCall range kind index =>
      addReplacement range kind (old.args.getD index [])
        (new.args.getD index [])
  | RCall.baseCall range _ =>
      if ¬ old.base = new.base then
        [{ range := range, newText := new.base }]
      else []

/-- All text edits of one occurrence's emissions. -/
def replacementsOfCalls (old new : DeclNameViewer) (cs : List RCall) :
    List Replacement :=
  cs.flatMap (replacementsOfCall old new)

/-! ## addSyntacticRenameRanges: one occurrence -/

/-- The data of a `ResolvedLoc` the rename engine consumes. -/
structure MResolvedLoc where
  rangeValid : Bool
  range : MRange
  nodeIsNull : Bool
  nodeIsStringLiteral : Bool
  isInSelector : Bool
  isActive : Bool
  labelType : LabelRangeType
  labelRanges : List MRange
  firstTrailingLabel : Option Nat
  deriving Repr

/-- The per-occurrence configuration of a `RenameLoc`. -/
structure MRenameConfig where
  usage : NameUsage
  isFunctionLike : Bool
  isNonProtocolType : Bool
  deriving Repr, DecidableEq

/-- Model of `Lexer::isOperator`: a non-empty string of Swift operator
characters. -/
def lexerIsOperator (s : List Char) : Bool :=
  ¬ s.isEmpty && s.all fun c =>
    c = '/' || c = '=' || c = '-' || c = '+' || c = '*' || c = '%' ||
    c = '<' || c = '>' || c = '!' || c = '&' || c = '|' || c = '^' ||
    c = '~' || c = '.' || c = '?'

/-- `Renamer::getSyntacticRenameRegionType`. -/
def getSyntacticRenameRegionType (resolved : MResolvedLoc) : RegionType :=
  if resolved.nodeIsNull then RegionType.Comment
  else if resolved.nodeIsStringLiteral then RegionType.String
  else if resolved.isInSelector then RegionType.Selector
  else if resolved.isActive then RegionType.ActiveCode
  else RegionType.InactiveCode

/-- `Renamer::addSyntacticRenameRanges`: match one resolved occurrence
against the old compound name, reporting its region type (`Mismatch` /
`Unmatched` on failure) together with the emissions produced up to that
point. -/
def addSyntacticRenameRanges (old : DeclNameViewer) (resolved : MResolvedLoc)
    (config : MRenameConfig) : RegionType × List RCall :=
  if ¬ resolved.rangeValid then (RegionType.Unmatched, [])
  else
    let regionKind := getSyntacticRenameRegionType resolved
    if regionKind = RegionType.ActiveCode ∧
        config.usage = NameUsage.Unknown then (RegionType.Unmatched, [])
    else
      let isSubscript := old.base = "subscript".data ∧ config.isFunctionLike
      let isInit := old.base = "init".data ∧ config.isFunctionLike
      let isCallAsFunction :=
        old.base = "callAsFunction".data ∧ config.isFunctionLike
      let isSpecialBase := isInit ∨ isSubscript ∨ isCallAsFunction
      if isSpecialBase ∧ config.usage = NameUsage.Unknown ∧
          resolved.labelType = LabelRangeType.NoneT then
        (RegionType.Unmatched, [])
      else
        let baseStep : Option (List RCall) :=
          if ¬ config.isFunctionLike ∨ ¬ isSpecialBase then
            let r := renameBase old.base resolved.range
              RefactoringRangeKind.BaseName
            if r.1 then none else some r.2
          else if isInit ∨ isCallAsFunction then
            let r := renameBase old.base resolved.range
              RefactoringRangeKind.KeywordBaseName
            -- The base name doesn't need to match (but may) for calls, but
            -- it should for definitions and references.
            if r.1 then
              if config.usage = NameUsage.Definition ∨
                  config.usage = NameUsage.Reference then none
              else some r.2
            else some r.2
          else if isSubscript ∧ config.usage = NameUsage.Definition then
            let r := renameBase old.base resolved.range
              RefactoringRangeKind.KeywordBaseName
            if r.1 then none else some r.2
          else some []
        match baseStep with
        | none => (RegionType.Mismatch, [])
        | some baseCalls =>
            let handleLabels :=
              if config.isFunctionLike then
                match config.usage with
                | NameUsage.Call => ¬ lexerIsOperator old.base
                | NameUsage.Definition => true
                | NameUsage.Reference =>
                    resolved.labelType = LabelRangeType.Selector ∨ isSubscript
                | NameUsage.Unknown =>
                    ¬ resolved.labelType = LabelRangeType.NoneT
              else false
            if ¬ config.isFunctionLike ∧
                ¬ resolved.labelType = LabelRangeType.NoneT ∧
                ¬ config.isNonProtocolType ∧
                ¬ config.usage = NameUsage.Definition then
              (RegionType.Mismatch, baseCalls)
            else if handleLabels then
              let isCallSite :=
                ¬ config.usage = NameUsage.Definition ∧
                (¬ config.usage = NameUsage.Reference ∨ isSubscript) ∧
                resolved.labelType = LabelRangeType.CallArg
              let r := renameLabels old.args resolved.labelRanges
                resolved.firstTrailingLabel resolved.labelType isCallSite
              if r.1 then
                (if config.usage = NameUsage.Unknown then
                  RegionType.Unmatched else RegionType.Mismatch,
                 baseCalls ++ r.2)
              else (regionKind, baseCalls ++ r.2)
            else (regionKind, baseCalls)

/-! ## syntacticRename: the per-occurrence loop -/

/-- The outcome `swift::ide::syntacticRename` hands to the edit consumer
for one occurrence: the region type, and either the occurrence's text edits
or `none` (the `EditConsumer.accept(SM, Type, None)` of a mismatch).  A
mismatch additionally produces one `mismatched_rename` diagnostic. -/
structure OccurrenceOutcome where
  region : RegionType
  edits : Option (List Replacement)
  diagnosedMismatch : Bool
  deriving Repr

/-- One iteration of `syntacticRename`'s loop over the rename locations. -/
def syntacticRenameOne (old new : DeclNameViewer) (resolved : MResolvedLoc)
    (config : MRenameConfig) : OccurrenceOutcome :=
  let r := addSyntacticRenameRanges old resolved config
  if r.1 = RegionType.Mismatch then
    { region := r.1, edits := none, diagnosedMismatch := true }
  else
    { region := r.1, edits := some (replacementsOfCalls old new r.2),
      diagnosedMismatch := false }

/-- `swift::ide::syntacticRename`'s main loop: every occurrence is
processed independently (the shared `ReplaceTextContext` only interns
strings and does not influence any outcome). -/
def syntacticRenameLoop (old new : DeclNameViewer)
    (locs : List (MResolvedLoc × MRenameConfig)) : List OccurrenceOutcome :=
  locs.map fun lc => syntacticRenameOne old new lc.1 lc.2

/-! ## AsyncConverter: name synthesis -/

/-- Decimal digits of `n`, most significant first (`std::to_string`); the
fuel argument (any value above the digit count, `n + 1` suffices) makes the
recursion structural. -/
def toDecimalAux : Nat → Nat → List Char
  | 0, _ => []
  | fuel + 1, n =>
      if n < 10 then [Nat.digitChar n]
      else toDecimalAux fuel (n / 10) ++ [Nat.digitChar (n % 10)]

/-- `std::to_string` on an unsigned value, as a character list. -/
def stdToString (n : Nat) : List Char :=
  toDecimalAux (n + 1) n

/-- The suffix-searching loop of `AsyncConverter::createUniqueName`: try
`name1`, `name2`, … starting at suffix `k` until a candidate is not in the
current scope's name set.  The fuel is chosen by `createUniqueName` so that
a fresh candidate always lies within it. -/
def createUniqueNameLoop (name : List Char) (scope : List (List Char)) :
    Nat → Nat → List Char
  | _, 0 => name
  | k, fuel + 1 =>
      let candidate := name ++ stdToString k
      if candidate ∈ scope then createUniqueNameLoop name scope (k + 1) fuel
      else candidate

/-- The longest length among the names of a scope. -/
def scopeMaxLen (scope : List (List Char)) : Nat :=
  scope.foldr (fun s m => max s.length m) 0

/-- `AsyncConverter::createUniqueName`: return `name` itself when it is not
in the current scope's name set, and otherwise append the smallest positive
integer suffix that makes it unused.  (The C++ do/while loop always
terminates because the scope is finite; the fuel `10 ^ (scopeMaxLen scope +
1)` provably contains a fresh candidate.) -/
def createUniqueName (name : List Char) (scope : List (List Char)) :
    List Char :=
  if name ∈ scope then
    createUniqueNameLoop name scope 1 (10 ^ (scopeMaxLen scope + 1))
  else name

/-- A declaration as the name synthesiser sees it: its identity and the
result of `getDeclName` (empty for a nameless declaration). -/
structure MDeclRef where
  id : Nat
  declName : List Char
  deriving Repr, DecidableEq

/-- The name-synthesis state of an `AsyncConverter`: the `Names` map from
declarations to their assigned identifiers, and the `ScopedNames` stack of
per-scope in-use name sets (the innermost scope is the head; the source
uses `ScopedNames.back()`). -/
structure ConvNames where
  names : List (Nat × List Char)
  scopedNames : List (List (List Char))
  deriving Repr, DecidableEq

/-- The current (innermost) scope's name set. -/
def ConvNames.currentScope (st : ConvNames) : List (List Char) :=
  st.scopedNames.headD []

/-- Insert a name into the current scope's name set
(`ScopedNames.back().insert(...)`). -/
def ConvNames.insertCurrent (st : ConvNames) (n : List Char) : ConvNames :=
  { st with scopedNames :=
      match st.scopedNames with
      | [] => [[n]]
      | s :: rest => (n :: s) :: rest }

/-- `llvm::DenseMap::try_emplace`: insert only when the key is absent. -/
def alistTryEmplace (m : List (Nat × List Char)) (k : Nat) (v : List Char) :
    List (Nat × List Char) :=
  if m.any (fun e => e.1 = k) then m else (k, v) :: m

/-- Look up a declaration's assigned name (`Names.find`). -/
def ConvNames.lookup (st : ConvNames) (d : Nat) : Option (List Char) :=
  (st.names.find? (fun e => e.1 = d)).map (fun e => e.2)

/-- `AsyncConverter::assignUniqueName`: create a unique name for the
declaration `d`, using `boundName` as the base if non-empty and `d`'s own
name otherwise.  A declaration with no name at all gets no name assigned; a
base name beginning with `$` (a closure's anonymous parameter) is replaced
by `val` followed by the characters after the `$` before uniquing.  The
chosen name is recorded in `Names` and added to the current scope's set.
Returns the identifier (empty when none was assigned). -/
def assignUniqueName (st : ConvNames) (d : MDeclRef) (boundName : List Char) :
    List Char × ConvNames :=
  let boundName' := if boundName.isEmpty then d.declName else boundName
  if boundName'.isEmpty then ([], st)
  else
    let ident :=
      if boundName'.head? = some '$' then
        createUniqueName ("val".data ++ boundName'.drop 1) st.currentScope
      else
        createUniqueName boundName' st.currentScope
    (ident,
     { names := alistTryEmplace st.names d.id ident,
       scopedNames := (st.insertCurrent ident).scopedNames })

/-- `AsyncConverter::newNameFor` (`Required = false`): the assigned name,
or empty when there is none. -/
def newNameFor (st : ConvNames) (d : Nat) : List Char :=
  (st.lookup d).getD []

/-- `AsyncConverter::addNewScope`: push a new scope pre-populated with the
names of the given declarations. -/
def addNewScope (st : ConvNames) (decls : List MDeclRef) : ConvNames :=
  { st with scopedNames :=
      (decls.filterMap fun d =>
        if d.declName.isEmpty then none else some d.declName) ::
      st.scopedNames }

/-- `AsyncConverter::clearNames`: remove the given declarations' entries
from `Names` (the `Unwraps`/`Placeholders` sets are modelled separately
where needed). -/
def clearNames (st : ConvNames) (params : List Nat) : ConvNames :=
  { st with names := st.names.filter (fun e => ¬ params.contains e.1) }

/-! ## Swift types and the completion-handler descriptor -/

/-- Model of the Swift types this engine inspects: `Void`, a nominal type
(carrying whether it conforms to `Error` and whether it is uninhabited, the
two semantic queries the engine makes of opaque types), an `Optional`, a
function type and the two-generic-argument `Result` type. -/
inductive MTy where
  | voidTy
  | namedTy (name : List Char) (conformsToError : Bool) (uninhabited : Bool)
  | optionalTy (t : MTy)
  | fnTy (params : List MTy) (result : MTy)
  | resultTy (success failure : MTy)
  deriving Repr

/-- `Type::isVoid`. -/
def MTy.isVoid : MTy → Bool
  | MTy.voidTy => true
  | _ => false

/-- `Type::getAs<AnyFunctionType>`: parameter types and result type. -/
def MTy.getAsFunction : MTy → Option (List MTy × MTy)
  | MTy.fnTy ps r => some (ps, r)
  | _ => none

/-- `Type::getOptionalObjectType`: the wrapped type, or null. -/
def MTy.getOptionalObjectType : MTy → Option MTy
  | MTy.optionalTy t => some t
  | _ => none

/-- `Type::isResult` (the stdlib `Result` type with two generic
arguments). -/
def MTy.isResult : MTy → Bool
  | MTy.resultTy _ _ => true
  | _ => false

/-- `Type::isUninhabited` (e.g. `Never`). -/
def MTy.isUninhabited : MTy → Bool
  | MTy.namedTy _ _ u => u
  | _ => false

/-- `isErrorType(Ty, MD)` (Refactoring.cpp): whether a (possibly null)
type conforms to the stdlib `Error` protocol; false for a null type. -/
def isErrorTypeM : Option MTy → Bool
  | none => false
  | some (MTy.namedTy _ e _) => e
  | some _ => false

/-- `HandlerType`. -/
inductive HandlerType where
  | INVALID
  | PARAMS
  | RESULT
  deriving Repr, DecidableEq

/-- The handler declaration `AsyncHandlerDesc::get` inspects: a variable
(which includes a parameter) or a function, or something else. -/
inductive MValueDecl where
  | varDecl (name : List Char) (ty : MTy)
  | funcDecl (name : List Char) (interfaceTy : MTy) (hasImplicitSelf : Bool)
  | otherDecl
  deriving Repr

/-- `AsyncHandlerDesc::getNameStr`. -/
def MValueDecl.nameStr : MValueDecl → List Char
  | MValueDecl.varDecl n _ => n
  | MValueDecl.funcDecl n _ _ => n
  | MValueDecl.otherDecl => []

/-- `AsyncHandlerDesc::getType`: a variable's type, or a function's
interface type with the self curry thunk undone for members. -/
def MValueDecl.handlerType : MValueDecl → MTy
  | MValueDecl.varDecl _ t => t
  | MValueDecl.funcDecl _ t self =>
      if self then
        match t with
        | MTy.fnTy _ r => r
        | _ => t
      else t
  | MValueDecl.otherDecl => MTy.voidTy

/-- `AsyncHandlerDesc` (without the handler pointer): the calling
convention and whether the handler carries an error. -/
structure AsyncHandlerDescM where
  type : HandlerType := HandlerType.INVALID
  hasError : Bool := false
  deriving Repr, DecidableEq

/-- `AsyncHandlerDesc::get`.  The handler must be a variable or function
whose name passes the completion-handler name test when `requireName` (the
test `isCompletionHandlerParamName` lives outside this file's sources and
is therefore a parameter `nameOk`), and must have a `Void`-returning
function type.  A single parameter of `Result` type makes a `RESULT`
descriptor whose `hasError` is the inhabitedness of the second generic
argument; otherwise, if no parameter is of `Result` type, a `PARAMS`
descriptor whose `hasError` says whether the last parameter's type with one
level of optionality stripped conforms to `Error`. -/
def AsyncHandlerDescM.get (nameOk : List Char → Bool) (handler : MValueDecl)
    (requireName : Bool) : AsyncHandlerDescM :=
  match handler with
  | MValueDecl.otherDecl => {}
  | _ =>
    if requireName ∧ ¬ nameOk handler.nameStr then {}
    else
      match handler.handlerType.getAsFunction with
      | none => {}
      | some (handlerParams, res) =>
          if ¬ res.isVoid then {}
          else
            let resultDesc : Option AsyncHandlerDescM :=
              match handlerParams with
              | [MTy.resultTy _ failure] =>
                  some { type := HandlerType.RESULT,
                         hasError := ¬ failure.isUninhabited }
              | _ => none
            match resultDesc with
            | some d => d
            | none =>
                if handlerParams.any (fun p => p.isResult) then {}
                else
                  { type := HandlerType.PARAMS,
                    hasError :=
                      match handlerParams.getLast? with
                      | none => false
                      | some last =>
                          isErrorTypeM last.getOptionalObjectType }

/-- A function parameter as `AsyncHandlerParamDesc::find` sees it. -/
structure MParamDecl where
  name : List Char
  ty : MTy
  isAutoClosure : Bool
  deriving Repr

/-- A function declaration as `AsyncHandlerParamDesc::find` sees it. -/
structure MFuncDecl where
  hasAsync : Bool
  hasThrows : Bool
  hasCompletionHandlerAsyncAttr : Bool
  params : List MParamDecl
  resultTy : MTy
  deriving Repr

/-- `AsyncHandlerParamDesc`: the descriptor plus the handler's parameter
index (`-1` when invalid). -/
structure AsyncHandlerParamDescM where
  desc : AsyncHandlerDescM := {}
  index : Int := -1
  deriving Repr, DecidableEq

/-- `AsyncHandlerParamDesc::find`: reject functions that are already
`async` or `throws`, have no parameters or do not return `Void`; the
candidate handler is the last parameter, which must not be `@autoclosure`;
the rest of the classification is `AsyncHandlerDesc::get` on it (the name
requirement is dropped when the function carries the completion-handler
attribute). -/
def AsyncHandlerParamDescM.find (nameOk : List Char → Bool) (fd : MFuncDecl)
    (requireAttributeOrName : Bool) : AsyncHandlerParamDescM :=
  if fd.hasAsync ∨ fd.hasThrows then {}
  else
    let requireName :=
      if requireAttributeOrName ∧ fd.hasCompletionHandlerAsyncAttr then false
      else requireAttributeOrName
    if fd.params.length = 0 ∨ ¬ fd.resultTy.isVoid then {}
    else
      let index := fd.params.length - 1
      match fd.params.getLast? with
      | none => {}
      | some param =>
          if param.isAutoClosure then {}
          else
            { desc := AsyncHandlerDescM.get nameOk
                (MValueDecl.varDecl param.name param.ty) requireName,
              index := Int.ofNat index }

/-! ## CallbackCondition: condition pattern matching -/

/-- `ConditionType`. -/
inductive MConditionType where
  | INVALID
  | NIL
  | NOT_NIL
  deriving Repr, DecidableEq

/-- The data of a bound sub-pattern (`CallbackCondition::BindPattern`):
whether it is a `BindingPattern` and a `let` one, its bound name and its
single bound variable (if any). -/
structure MBindInfo where
  isBindingPattern : Bool
  isLet : Bool
  boundName : List Char
  singleVar : Option Nat
  deriving Repr, DecidableEq

/-- The patterns `CallbackCondition` inspects: an optional-some binding
`let bind = subj`, an enum-element pattern `.name(let bind)` (with its
element declaration's presence, whether the parent enum is `Result`, and
the element name), or anything else. -/
inductive MPattern where
  | optionalSomeP (sub : Option MBindInfo)
  | enumElemP (hasElementDecl : Bool) (parentIsResult : Bool)
      (elemName : List Char) (sub : Option MBindInfo)
  | otherP
  deriving Repr, DecidableEq

/-- The shape checks `CallbackCondition::initFromOptionalTry` performs on
the sub-expression of a `try? <base>.get()` initializer. -/
structure MOptTryGet where
  viaConversion : Bool
  syntacticIsCall : Bool
  fnIsDotSyntax : Bool
  baseIsDeclRef : Bool
  base : Nat
  baseTypeIsResult : Bool
  fnIsDeclRef : Bool
  fnIsFuncNamedGet : Bool
  deriving Repr, DecidableEq

/-- A pattern condition's initializer expression: a declaration reference,
a `try?` binding, or anything else. -/
inductive MInit where
  | initRef (d : Nat)
  | initOptTry (sub : MOptTryGet)
  | initOther
  deriving Repr, DecidableEq

/-- The boolean condition expressions `CallbackCondition::all` walks: `nil`
literals, declaration references, binary operator applications (with the
resolved operator's base name, when `isOperator` finds one), autoclosures
(whose single-expression body may be null), and anything else. -/
inductive MExpr where
  | nilLitE
  | declRefE (d : Nat)
  | binOpE (op : Option (List Char)) (lhs rhs : MExpr)
  | autoclosureE (body : Option MExpr)
  | otherE
  deriving Repr

/-- One element of a `StmtCondition`: a boolean expression, a pattern with
its initializer, or another kind (e.g. availability), which the walk
ignores. -/
inductive MCondElem where
  | boolC (e : MExpr)
  | patC (p : MPattern) (init : MInit)
  | otherC
  deriving Repr

/-- `CallbackCondition`: the type of test, the subject declaration, the
bound pattern and whether this is the `Result` `.failure` case. -/
structure MCallbackCondition where
  type : MConditionType := MConditionType.INVALID
  subject : Option Nat := none
  bindPattern : Option MBindInfo := none
  errorCase : Bool := false
  deriving Repr, DecidableEq

/-- `CallbackCondition::isValid`. -/
def MCallbackCondition.isValid (cc : MCallbackCondition) : Bool :=
  ¬ cc.type = MConditionType.INVALID

/-- `CallbackCondition(BinaryExpr, Operator)`: a `<subj> ==/!= nil`
comparison.  The subject is the last `DeclRefExpr` operand (the source
iterates `{LHS, RHS}` and keeps the last assignment). -/
def ccFromBinary (op : List Char) (lhs rhs : MExpr) : MCallbackCondition :=
  let foundNil :=
    (match lhs with | MExpr.nilLitE => true | _ => false) ||
    (match rhs with | MExpr.nilLitE => true | _ => false)
  let subject : Option Nat :=
    match rhs with
    | MExpr.declRefE d => some d
    | _ =>
        match lhs with
        | MExpr.declRefE d => some d
        | _ => none
  if subject.isSome ∧ foundNil then
    if op = "==".data then
      { type := MConditionType.NIL, subject := subject }
    else if op = "!=".data then
      { type := MConditionType.NOT_NIL, subject := subject }
    else { subject := subject }
  else { subject := subject }

/-- `CallbackCondition::initFromEnumPattern`: a `.success`/`.failure`
pattern of the `Result` enum over the given subject. -/
def ccFromEnumPattern (subject : Option Nat) (hasElementDecl : Bool)
    (parentIsResult : Bool) (elemName : List Char) (sub : Option MBindInfo) :
    MCallbackCondition :=
  if hasElementDecl then
    if ¬ parentIsResult then {}
    else
      { type := MConditionType.NOT_NIL, subject := subject,
        bindPattern := sub, errorCase := elemName = "failure".data }
  else {}

/-- `CallbackCondition::initFromOptionalTry`: a `let bind = try?
<subject>.get()` over a `Result`-typed subject.  (When the `.get()` call's
base is not a `DeclRefExpr` the source dereferences a null pointer; that
shape is modelled as not producing a condition.) -/
def ccFromOptionalTry (sub : Option MBindInfo) (t : MOptTryGet) :
    MCallbackCondition :=
  if ¬ t.viaConversion then {}
  else if ¬ t.syntacticIsCall then {}
  else if ¬ t.fnIsDotSyntax then {}
  else if ¬ t.baseIsDeclRef then {}
  else if ¬ t.baseTypeIsResult then {}
  else if ¬ t.fnIsDeclRef then {}
  else if ¬ t.fnIsFuncNamedGet then {}
  else
    { type := MConditionType.NOT_NIL, subject := some t.base,
      bindPattern := sub }

/-- `CallbackCondition(Pattern, Init)`: binding of an `Optional` or
`Result` subject. -/
def ccFromPatternInit (p : MPattern) (i : MInit) : MCallbackCondition :=
  match i with
  | MInit.initRef d =>
      match p with
      | MPattern.optionalSomeP sub =>
          { type := MConditionType.NOT_NIL, subject := some d,
            bindPattern := sub }
      | MPattern.enumElemP hasED parentRes elemName sub =>
          ccFromEnumPattern (some d) hasED parentRes elemName sub
      | MPattern.otherP => {}
  | MInit.initOptTry t =>
      match p with
      | MPattern.optionalSomeP sub => ccFromOptionalTry sub t
      | _ => {}
  | MInit.initOther => {}

/-- `CallbackCondition(Subject, CaseItem)`: a `case .success(let v)` /
`case .failure(let e)` label item of a switch over the subject. -/
def ccFromCaseItem (subject : Option Nat) (p : MPattern) :
    MCallbackCondition :=
  match p with
  | MPattern.enumElemP hasED parentRes elemName sub =>
      ccFromEnumPattern subject hasED parentRes elemName sub
  | _ => {}

/-- The map built by `CallbackCondition::all`: one condition per subject
declaration, in insertion order. -/
abbrev CCMap := List (Nat × MCallbackCondition)

/-- `CallbackCondition::addCond`: record a condition against its subject;
an invalid condition, a subject outside `decls`, or a second condition for
the same subject makes the element unhandled. -/
def addCondM (cc : MCallbackCondition) (decls : List Nat) (addTo : CCMap)
    (handled : Bool) : CCMap × Bool :=
  match cc.subject with
  | none => (addTo, false)
  | some d =>
      if ¬ cc.isValid ∨ ¬ decls.contains d then (addTo, false)
      else if addTo.any (fun e => e.1 = d) then (addTo, false)
      else (addTo ++ [(d, cc)], handled)

/-- The boolean-expression walk of `CallbackCondition::all`: unwrap one
autoclosure, follow `&&` into both operands (the source's explicit stack
pops the right operand's subtree first), turn `==`/`!=` comparisons into
conditions, and mark anything else unhandled. -/
def condWalkExpr (decls : List Nat) : MExpr → CCMap × Bool → CCMap × Bool
  | MExpr.binOpE (some op) l r, acc =>
      if op = "&&".data then
        condWalkExpr decls l (condWalkExpr decls r acc)
      else
        addCondM (ccFromBinary op l r) decls acc.1 acc.2
  | MExpr.autoclosureE (some (MExpr.binOpE (some op) l r)), acc =>
      if op = "&&".data then
        condWalkExpr decls l (condWalkExpr decls r acc)
      else
        addCondM (ccFromBinary op l r) decls acc.1 acc.2
  | _, acc => (acc.1, false)

/-- `CallbackCondition::all`: collect the conditions of an `if`/`guard`
condition that refer to the given declarations; the result's flag says
whether every element was handled and at least one condition was found. -/
def ccAll (cond : List MCondElem) (decls : List Nat) : Bool × CCMap :=
  let r := cond.foldl
    (fun acc el =>
      match el with
      | MCondElem.boolC e => condWalkExpr decls e acc
      | MCondElem.patC p i => addCondM (ccFromPatternInit p i) decls acc.1 acc.2
      | MCondElem.otherC => acc)
    (([] : CCMap), true)
  (r.2 && ¬ r.1.isEmpty, r.1)

/-! ## The statement model and NodesToPrint -/

/-- One `CaseLabelItem`: its pattern and whether it has a where-clause
(`getWhereLoc().isValid()`). -/
structure MCaseLabelItem where
  whereValid : Bool
  pattern : MPattern
  deriving Repr

mutual
/-- The `ASTNode`s the classifier walks: return/break statements (with
their implicitness and, for return, whether a result expression is
present), variable declarations (skipped by `NodesToPrint::addNode`),
`if`/`guard`/`switch` statements, and any other node.  Each carries its
start location (`none` models an invalid `SourceLoc`); a switch also
carries an identity for the `HandledSwitches` set. -/
inductive MNode where
  | retStmt (loc : Option Nat) (hasResult : Bool) (implicit : Bool)
  | breakStmt (loc : Option Nat) (implicit : Bool)
  | varDeclNode (loc : Option Nat)
  | plainNode (loc : Option Nat)
  | ifStmt (loc : Option Nat) (cond : List MCondElem) (thenB : MBranch)
      (els : Option MBranch)
  | guardStmt (loc : Option Nat) (cond : List MCondElem) (body : MBraceStmt)
  | switchStmt (sid : Nat) (loc : Option Nat) (subject : Option Nat)
      (cases : List MCaseStmt) (rbraceLoc : Option Nat)
  deriving Repr

/-- A `BraceStmt`: its elements, its right-brace location and whether it
is implicit. -/
inductive MBraceStmt where
  | mk (elements : List MNode) (rbraceLoc : Option Nat) (implicit : Bool)
  deriving Repr

/-- A then/else branch: a brace statement or a single statement. -/
inductive MBranch where
  | braceB (b : MBraceStmt)
  | singleB (s : MNode)
  deriving Repr

/-- A `CaseStmt`: location, fallthrough/default flags, its label items
(at least one) and its body. -/
inductive MCaseStmt where
  | mk (loc : Option Nat) (hasFallthroughDest : Bool) (isDefault : Bool)
      (item : MCaseLabelItem) (moreItems : List MCaseLabelItem)
      (body : MBraceStmt)
  deriving Repr
end

/-- `ASTNode::getStartLoc`. -/
def MNode.startLoc : MNode → Option Nat
  | MNode.retStmt loc _ _ => loc
  | MNode.breakStmt loc _ => loc
  | MNode.varDeclNode loc => loc
  | MNode.plainNode loc => loc
  | MNode.ifStmt loc _ _ _ => loc
  | MNode.guardStmt loc _ _ => loc
  | MNode.switchStmt _ loc _ _ _ => loc

/-- Whether `NodesToPrint::addNode` skips this node
(`Node.isDecl(DeclKind::Var)`). -/
def MNode.isVarDecl : MNode → Bool
  | MNode.varDeclNode _ => true
  | _ => false

/-- `NodesToPrint`: nodes to print plus locations that may carry
comments. -/
structure MNodesToPrint where
  nodes : List MNode
  commentLocs : List Nat
  deriving Repr

/-- The empty `NodesToPrint`. -/
def MNodesToPrint.empty : MNodesToPrint := { nodes := [], commentLocs := [] }

/-- `NodesToPrint::addNode` (vars are printed with their pattern binding
and skipped here). -/
def MNodesToPrint.addNode (n : MNodesToPrint) (node : MNode) :
    MNodesToPrint :=
  if node.isVarDecl then n else { n with nodes := n.nodes ++ [node] }

/-- `NodesToPrint::addPossibleCommentLoc`: record a location unless it is
invalid. -/
def MNodesToPrint.addPossibleCommentLoc (n : MNodesToPrint)
    (loc : Option Nat) : MNodesToPrint :=
  match loc with
  | some l => { n with commentLocs := n.commentLocs ++ [l] }
  | none => n

/-- `NodesToPrint::addNodesInBraceStmt`: all elements, plus the right
brace's comment location when the brace is explicit. -/
def MNodesToPrint.addNodesInBraceStmt (n : MNodesToPrint)
    (b : MBraceStmt) : MNodesToPrint :=
  match b with
  | MBraceStmt.mk elements rbraceLoc implicit =>
      let n' := elements.foldl MNodesToPrint.addNode n
      if ¬ implicit then n'.addPossibleCommentLoc rbraceLoc else n'

/-- `NodesToPrint::inBraceStmt`. -/
def MNodesToPrint.inBraceStmt (b : MBraceStmt) : MNodesToPrint :=
  MNodesToPrint.empty.addNodesInBraceStmt b

/-- `NodesToPrint::addNodes`: append another `NodesToPrint`. -/
def MNodesToPrint.addNodes (n other : MNodesToPrint) : MNodesToPrint :=
  { nodes := n.nodes ++ other.nodes,
    commentLocs := n.commentLocs ++ other.commentLocs }

/-- `NodesToPrint::hasTrailingReturnOrBreak`: the last node is an explicit
return or break statement. -/
def MNodesToPrint.hasTrailingReturnOrBreak (n : MNodesToPrint) : Bool :=
  match n.nodes.getLast? with
  | some (MNode.retStmt _ _ implicit) => ¬ implicit
  | some (MNode.breakStmt _ implicit) => ¬ implicit
  | _ => false

/-- `NodesToPrint::dropTrailingReturnOrBreakIfPossible`: drop a trailing
bare return/break (keeping its location as a possible comment); a return
with a result expression is preserved. -/
def MNodesToPrint.dropTrailingReturnOrBreakIfPossible (n : MNodesToPrint) :
    MNodesToPrint :=
  if ¬ n.hasTrailingReturnOrBreak then n
  else
    match n.nodes.getLast? with
    | some (MNode.retStmt loc hasResult _) =>
        if hasResult then n
        else
          { nodes := n.nodes.dropLast,
            commentLocs := n.commentLocs ++ loc.toList }
    | some (MNode.breakStmt loc _) =>
        { nodes := n.nodes.dropLast,
          commentLocs := n.commentLocs ++ loc.toList }
    | _ => n

/-! ## ClassifiedBlock and the classifier state -/

/-- `ClassifiedBlock`: the nodes to print, the first bound name per
subject declaration (`BoundNames`), the bound-variable aliases
(`Aliases`), and whether all bindings used `let`. -/
structure MClassifiedBlock where
  printed : MNodesToPrint := MNodesToPrint.empty
  boundNames : List (Option Nat × List Char) := []
  aliases : List (Nat × Option Nat) := []
  allLet : Bool := true
  deriving Repr

/-- `ClassifiedBlock::boundName`. -/
def MClassifiedBlock.boundName (b : MClassifiedBlock) (d : Option Nat) :
    List Char :=
  ((b.boundNames.find? fun e => e.1 = d).map fun e => e.2).getD []

/-- `ClassifiedBlock::addBinding`: record a condition's bound pattern.  A
non-`let` binding pattern clears `allLet`; a nameless pattern or one
without a single bound variable records nothing; otherwise the alias
var → subject is recorded and the subject's first bound name is kept. -/
def MClassifiedBlock.addBinding (b : MClassifiedBlock)
    (cc : MCallbackCondition) : MClassifiedBlock :=
  match cc.bindPattern with
  | none => b
  | some bp =>
      let b := if bp.isBindingPattern ∧ ¬ bp.isLet then
        { b with allLet := false } else b
      if bp.boundName.isEmpty then b
      else
        match bp.singleVar with
        | none => b
        | some sv =>
            let b :=
              if b.aliases.any (fun e => e.1 = sv) then b
              else { b with aliases := b.aliases ++ [(sv, cc.subject)] }
            if b.boundNames.any (fun e => e.1 = cc.subject) then b
            else
              { b with boundNames := b.boundNames ++ [(cc.subject,
                  bp.boundName)] }

/-- The diagnostics the classifier and converter can raise. -/
inductive MDiag where
  | unknownCallbackConditions (loc : Option Nat)
  | mixedCallbackConditions (loc : Option Nat)
  | callbackWithFallthrough (loc : Option Nat)
  | callbackWithDefault (loc : Option Nat)
  | callbackMultipleCaseItems (loc : Option Nat)
  | callbackWhereCaseItem (loc : Option Nat)
  | mismatchedCallbackArgs (loc : Option Nat)
  | missingCallbackArg (loc : Option Nat)
  deriving Repr, DecidableEq

/-- A `DiagnosticEngine`: the diagnostics emitted so far and the
`hadAnyError` flag (`resetHadAnyError` clears only the flag). -/
structure MDiagEngine where
  emitted : List MDiag := []
  hadAnyError : Bool := false
  deriving Repr, DecidableEq

/-- `DiagnosticEngine::diagnose` (every diagnostic here is an error). -/
def MDiagEngine.diagnose (e : MDiagEngine) (d : MDiag) : MDiagEngine :=
  { emitted := e.emitted ++ [d], hadAnyError := true }

/-- The mutable state a `CallbackClassifier` threads: the two blocks, the
current-block pointer (`true` is the success block, the initial value),
the handled-switches set and the diagnostic engine. -/
structure CState where
  success : MClassifiedBlock := {}
  error : MClassifiedBlock := {}
  current : Bool := true
  handledSwitches : List Nat := []
  diag : MDiagEngine := {}
  deriving Repr

/-- The block a tag points to (`true` = success). -/
def CState.block (st : CState) (tag : Bool) : MClassifiedBlock :=
  if tag then st.success else st.error

/-- Replace the block a tag points to. -/
def CState.setBlock (st : CState) (tag : Bool) (b : MClassifiedBlock) :
    CState :=
  if tag then { st with success := b } else { st with error := b }

/-- `Block->addNode`. -/
def CState.addNodeTo (st : CState) (tag : Bool) (n : MNode) : CState :=
  st.setBlock tag
    { st.block tag with printed := (st.block tag).printed.addNode n }

/-- `Block->addPossibleCommentLoc`. -/
def CState.addCommentTo (st : CState) (tag : Bool) (loc : Option Nat) :
    CState :=
  st.setBlock tag
    { st.block tag with
      printed := (st.block tag).printed.addPossibleCommentLoc loc }

/-- `Block->addAllNodes`. -/
def CState.addAllNodesTo (st : CState) (tag : Bool) (ns : MNodesToPrint) :
    CState :=
  st.setBlock tag
    { st.block tag with printed := (st.block tag).printed.addNodes ns }

/-- `Block->addBinding`. -/
def CState.addBindingTo (st : CState) (tag : Bool)
    (cc : MCallbackCondition) : CState :=
  st.setBlock tag ((st.block tag).addBinding cc)

/-- `Block->addAllBindings`: bind every collected condition, stopping on a
diagnostic (none of the bindings diagnoses, but the source checks). -/
def CState.addAllBindingsTo (st : CState) (tag : Bool) (ccs : CCMap) :
    CState :=
  ccs.foldl
    (fun s e => if s.diag.hadAnyError then s else s.addBindingTo tag e.2) st

/-- Raise a diagnostic. -/
def CState.diagnose (st : CState) (d : MDiag) : CState :=
  { st with diag := st.diag.diagnose d }

/-- The classifier's fixed context: the unwrapped parameters
(`UnwrapParams`), the error parameter and whether it is a `Result`
parameter. -/
structure CEnv where
  unwrapParams : List Nat
  errParam : Option Nat
  isResultParam : Bool
  deriving Repr

/-! ## CallbackClassifier -/

/-- `CallbackClassifier::setNodes`: when the nodes end in a return/break,
the current block becomes the other block and the trailing return/break is
dropped if it is bare; the nodes go to `blockTag` either way. -/
def setNodes (st : CState) (blockTag otherTag : Bool)
    (nodes : MNodesToPrint) : CState :=
  if nodes.hasTrailingReturnOrBreak then
    let st := { st with current := otherTag }
    st.addAllNodesTo blockTag nodes.dropTrailingReturnOrBreakIfPossible
  else
    st.addAllNodesTo blockTag nodes

/-- The filter and fold computing `CondType` in
`CallbackClassifier::classifyConditional`: the common type of the
conditions not about the error parameter (unless it is a `Result`
parameter); `none` models the mixed-condition early exit. -/
def scanCondTypes (env : CEnv) : CCMap → MConditionType → Option MConditionType
  | [], acc => some acc
  | (d, cc) :: rest, acc =>
      if env.isResultParam ∨ ¬ (env.errParam = some d) then
        if acc = MConditionType.INVALID then scanCondTypes env rest cc.type
        else if ¬ acc = cc.type then none
        else scanCondTypes env rest acc
      else scanCondTypes env rest acc

/-- `CallbackClassifier::classifyConditional`.  `recNodes` performs the
recursive `classifyNodes` call for a non-brace else branch. -/
def classifyConditionalGen
    (recNodes : CState → List MNode → Option Nat → CState) (env : CEnv)
    (st : CState) (statement : MNode) (condition : List MCondElem)
    (thenNodesToPrint : MNodesToPrint) (elseStmt : Option MBranch) :
    CState :=
  let r := ccAll condition env.unwrapParams
  let unhandledConditions := ¬ r.1
  let callbackConditions := r.2
  let errCondition : MCallbackCondition :=
    ((callbackConditions.find? fun e => some e.1 = env.errParam).map
      fun e => e.2).getD {}
  if unhandledConditions then
    -- Some unknown conditions: with an else assume we can't handle it;
    -- otherwise route the whole statement by heuristics.
    if callbackConditions.isEmpty then
      st.addNodeTo st.current statement
    else if elseStmt.isSome then
      st.diagnose (MDiag.unknownCallbackConditions statement.startLoc)
    else if errCondition.isValid ∧
        errCondition.type = MConditionType.NOT_NIL then
      st.addNodeTo false statement
    else if callbackConditions.any
        (fun e => e.2.type = MConditionType.NIL) then
      st.addNodeTo false statement
    else
      st.addNodeTo true statement
  else
    let swapped : Option Bool :=
      if errCondition.isValid ∧
          (¬ env.isResultParam ∨ errCondition.errorCase) ∧
          errCondition.type = MConditionType.NOT_NIL then
        some true
      else
        match scanCondTypes env callbackConditions MConditionType.INVALID with
        | none => none
        | some t => some (t = MConditionType.NIL)
    match swapped with
    | none =>
        -- Mixed conditions: diagnose with an else, otherwise add the
        -- whole statement to the current block.
        if elseStmt.isSome then
          st.diagnose (MDiag.mixedCallbackConditions statement.startLoc)
        else
          st.addNodeTo st.current statement
    | some sw =>
        let thenTag := if sw then false else true
        let elseTag := ¬ thenTag
        let st := st.addCommentTo st.current statement.startLoc
        let st := st.addAllBindingsTo thenTag callbackConditions
        if st.diag.hadAnyError then st
        else
          let st := setNodes st thenTag elseTag thenNodesToPrint
          match elseStmt with
          | none => st
          | some (MBranch.braceB b) =>
              setNodes st elseTag thenTag (MNodesToPrint.inBraceStmt b)
          | some (MBranch.singleB s) => recNodes st [s] none

/-- The per-case loop of `CallbackClassifier::classifySwitch`; the flag
reports whether every case was processed without a diagnostic. -/
def classifySwitchCases (env : CEnv) (rbraceLoc : Option Nat) :
    CState → List MCaseStmt → CState × Bool
  | st, [] => (st, true)
  | st, MCaseStmt.mk loc hasFallthroughDest isDefault item moreItems body ::
      rest =>
    if hasFallthroughDest then
      (st.diagnose (MDiag.callbackWithFallthrough loc), false)
    else if isDefault then
      (st.diagnose (MDiag.callbackWithDefault loc), false)
    else if ¬ moreItems.isEmpty then
      (st.diagnose (MDiag.callbackMultipleCaseItems loc), false)
    else if item.whereValid then
      (st.diagnose (MDiag.callbackWhereCaseItem loc), false)
    else
      let cc := ccFromCaseItem env.errParam item.pattern
      let blockTag := if cc.errorCase then false else true
      let otherTag := ¬ blockTag
      -- Comments attached to the case go to the current block; the last
      -- case also picks up the switch's right-brace comments.
      let st := st.addCommentTo st.current loc
      let st := if rest.isEmpty then st.addCommentTo blockTag rbraceLoc
        else st
      let st := setNodes st blockTag otherTag (MNodesToPrint.inBraceStmt body)
      let st := st.addBindingTo blockTag cc
      if st.diag.hadAnyError then (st, false)
      else classifySwitchCases env rbraceLoc st rest

/-- `CallbackClassifier::classifySwitch`: a switch whose subject is not
the `Result` parameter goes to the current block unchanged; otherwise each
case is checked (fallthrough, default, multiple label items and
where-clauses are diagnosed and abort the switch) and its body routed to
the success or error block according to its `.success`/`.failure`
pattern; a fully processed switch is recorded in `HandledSwitches`. -/
def classifySwitch (env : CEnv) (st : CState) (node : MNode) (sid : Nat)
    (loc : Option Nat) (subject : Option Nat) (cases : List MCaseStmt)
    (rbraceLoc : Option Nat) : CState :=
  if ¬ env.isResultParam ∨ ¬ (subject = env.errParam) then
    st.addNodeTo st.current node
  else
    let st := st.addCommentTo st.current loc
    let r := classifySwitchCases env rbraceLoc st cases
    if r.2 then
      { r.1 with handledSwitches := r.1.handledSwitches ++ [sid] }
    else r.1

/-- The then-branch print set of an `if`: the brace's nodes, or the single
statement as-is (`NodesToPrint({Then}, {})`). -/
def thenNodesOf : MBranch → MNodesToPrint
  | MBranch.braceB b => MNodesToPrint.inBraceStmt b
  | MBranch.singleB s => { nodes := [s], commentLocs := [] }

/-- Classify one node (the dispatch in
`CallbackClassifier::classifyNodes`'s loop body). -/
def classifyNodeOne (recNodes : CState → List MNode → Option Nat → CState)
    (env : CEnv) (st : CState) (n : MNode) : CState :=
  match n with
  | MNode.ifStmt _ cond thenB els =>
      classifyConditionalGen recNodes env st n cond (thenNodesOf thenB) els
  | MNode.guardStmt _ cond body =>
      classifyConditionalGen recNodes env st n cond MNodesToPrint.empty
        (some (MBranch.braceB body))
  | MNode.switchStmt sid loc subject cases rb =>
      classifySwitch env st n sid loc subject cases rb
  | _ => st.addNodeTo st.current n

/-- `CallbackClassifier::classifyNodes`: classify the nodes in order,
aborting after a node that raised a diagnostic; the end location's
comments are picked up at the end.  The fuel only bounds the recursion
depth through nested statements (every recursive call decrements it); all
results below are about runs that do not exhaust it. -/
def classifyNodes : Nat → CEnv → CState → List MNode → Option Nat → CState
  | 0, _, st, _, _ => st
  | _ + 1, _, st, [], endCommentLoc =>
      st.addCommentTo st.current endCommentLoc
  | fuel + 1, env, st, n :: rest, endCommentLoc =>
      let st' := classifyNodeOne (classifyNodes fuel env) env st n
      if st'.diag.hadAnyError then st'
      else classifyNodes fuel env st' rest endCommentLoc

/-- `CallbackClassifier::classifyInto`: classify a closure body's
statements into the two blocks, starting from the success block. -/
def classifyInto (fuel : Nat) (unwrapParams : List Nat)
    (errParam : Option Nat) (resultType : HandlerType) (diag : MDiagEngine)
    (handledSwitches : List Nat) (body : MBraceStmt) : CState :=
  match body with
  | MBraceStmt.mk elements rbraceLoc _ =>
      let env : CEnv :=
        { unwrapParams := unwrapParams, errParam := errParam,
          isResultParam := resultType = HandlerType.RESULT }
      let st : CState :=
        { diag := diag, handledSwitches := handledSwitches }
      classifyNodes fuel env st elements rbraceLoc

/-! ## AsyncConverter: the hoisted-closure callback and its fallback -/

/-- The handler descriptor as the converter uses it: convention, error
flag and the handler function type's parameter types. -/
structure MHandlerDescC where
  type : HandlerType
  hasError : Bool
  params : List MTy
  deriving Repr

/-- `Type::lookThroughSingleOptionalType`. -/
def MTy.lookThroughSingleOptionalType : MTy → MTy
  | MTy.optionalTy t => t
  | t => t

/-- `AsyncHandlerDesc::getSuccessParams`: the handler parameters without
the trailing error parameter (PARAMS convention with an error). -/
def MHandlerDescC.getSuccessParams (h : MHandlerDescC) : List MTy :=
  if h.hasError ∧ h.type = HandlerType.PARAMS then h.params.dropLast
  else h.params

/-- `AsyncHandlerDesc::getSuccessParamAsyncReturnType`. -/
def MHandlerDescC.getSuccessParamAsyncReturnType (h : MHandlerDescC)
    (ty : MTy) : MTy :=
  match h.type with
  | HandlerType.PARAMS =>
      if h.hasError then ty.lookThroughSingleOptionalType else ty
  | HandlerType.RESULT =>
      match ty with
      | MTy.resultTy a _ => a
      | t => t
  | HandlerType.INVALID => ty

/-- `AsyncHandlerDesc::willAsyncReturnVoid`. -/
def MHandlerDescC.willAsyncReturnVoid (h : MHandlerDescC) : Bool :=
  h.getSuccessParams.all fun ty =>
    (h.getSuccessParamAsyncReturnType ty).isVoid

/-- `AsyncHandlerDesc::shouldUnwrap`. -/
def MHandlerDescC.shouldUnwrap (h : MHandlerDescC) (ty : MTy) : Bool :=
  h.hasError && (match ty with | MTy.optionalTy _ => true | _ => false)

/-- A closure parameter declaration of the callback being hoisted. -/
structure MClosureParam where
  id : Nat
  name : List Char
  ty : MTy
  deriving Repr

/-- One argument of the call being converted (only whether it is a
`DefaultArgumentExpr` matters to the emission). -/
structure MArg where
  isDefaultArg : Bool
  deriving Repr, DecidableEq

/-- The call expression being converted: its start location and the source
text of the range from its start to its function's end (copied verbatim by
`addRange`), plus its arguments. -/
structure MCallExpr where
  startLoc : Option Nat
  fnRangeText : List Char
  args : List MArg
  deriving Repr

/-- A piece of converter output: literal text, a verbatim source-range
copy, a converted argument expression (`convertNode(Args[I], …)`), the
conversion of a node set (`convertNodes`), or the whole non-diagnostic
continuation of `addHoistedClosureCallback` (lines 5958–6010 of the
source), which no claim depends on and which is recorded as one event
carrying the classified blocks. -/
inductive Chunk where
  | strC (text : List Char)
  | srcRangeC (text : List Char)
  | convertedArg (argIdx : Nat)
  | convertedAll (ntp : MNodesToPrint)
  | classifiedContinuation (successB errorB : MClassifiedBlock)
  deriving Repr

/-- The converter state the hoisting code threads: name synthesis state,
diagnostics, handled switches and the emitted output. -/
structure ConvState where
  names : ConvNames
  diag : MDiagEngine
  handledSwitches : List Nat
  out : List Chunk
  deriving Repr

/-- `Ty->print(OS)`, for the types of this model. -/
def printMTy : MTy → List Char
  | MTy.voidTy => "Void".data
  | MTy.namedTy n _ _ => n
  | MTy.optionalTy t => printMTy t ++ ['?']
  | MTy.fnTy ps r =>
      let rec go : List MTy → List Char
        | [] => []
        | [t] => printMTy t
        | t :: ts => printMTy t ++ ", ".data ++ go ts
      ['('] ++ go ps ++ ") -> ".data ++ printMTy r
  | MTy.resultTy a b =>
      "Result<".data ++ printMTy a ++ ", ".data ++ printMTy b ++ ['>']

/-- `DenseMap` assignment (`Names[K] = V`): overwrite or insert. -/
def alistSet (m : List (Nat × List Char)) (k : Nat) (v : List Char) :
    List (Nat × List Char) :=
  if m.any (fun e => e.1 = k) then
    m.map (fun e => if e.1 = k then (k, v) else e)
  else (k, v) :: m

/-- `AsyncConverter::prepareNames`: assign a (unique) name to every
parameter, preferring its bound pattern name from the classified block;
without a bound name the parameter's own name is used when `addIfMissing`.
Afterwards, every alias variable is mapped to its subject's name. -/
def prepareNames (st : ConvNames) (block : MClassifiedBlock)
    (params : List MClosureParam) (addIfMissing : Bool := true) :
    ConvNames :=
  let st1 := params.foldl
    (fun s pd =>
      let name := block.boundName (some pd.id)
      if ¬ name.isEmpty ∨ addIfMissing then
        (assignUniqueName s { id := pd.id, declName := pd.name } name).2
      else s)
    st
  block.aliases.foldl
    (fun s al =>
      match al.2 with
      | some subj =>
          match s.lookup subj with
          | some v => { s with names := alistSet s.names al.1 v }
          | none => s
      | none => s)
    st1

/-- `AsyncConverter::addFallbackVars`: one `var <name>: <type>` per
fallback parameter, made optional if it is not already, initialised to
`nil`. -/
def addFallbackVars (names : ConvNames) (fallbackParams : List MClosureParam) :
    List Chunk :=
  fallbackParams.map fun pd =>
    Chunk.strC ("var ".data ++ newNameFor names pd.id ++ ": ".data ++
      printMTy pd.ty ++
      (match pd.ty.getOptionalObjectType with
       | some _ => []
       | none => ['?']) ++
      " = nil\n".data)

/-- `AsyncConverter::addDo`. -/
def addDo : List Chunk :=
  [Chunk.strC "do \x7b\n".data]

/-- `AsyncConverter::addFallbackCatch`: close the `do`, open a `catch`
and assign the caught error to the error parameter's name. -/
def addFallbackCatch (names : ConvNames) (errParam : Option Nat) :
    List Chunk :=
  let errName := match errParam with
    | some e => newNameFor names e
    | none => []
  [Chunk.strC ("\n\x7d catch \x7b\n".data ++ errName ++
    " = error\n".data ++ "\x7d".data)]

/-- `AsyncConverter::addAwaitCall`: the bindings for the success
parameters (declared with `let`/`var` when `addDeclarations`, a plain
assignment otherwise, omitted for a `Void` async return), then `try`
(handlers with an error) `await`, the callee's verbatim source text and
the converted arguments without the trailing callback (default-argument
placeholders are skipped). -/
def addAwaitCall (names : ConvNames) (ce : MCallExpr)
    (successBlock : MClassifiedBlock) (successParams : List MClosureParam)
    (handlerDesc : MHandlerDescC) (addDeclarations : Bool) : List Chunk :=
  let bindings : List Chunk :=
    if ¬ successParams.isEmpty ∧ ¬ handlerDesc.willAsyncReturnVoid then
      (if addDeclarations then
        [Chunk.strC (if successBlock.allLet then "let ".data else
          "var ".data)]
       else []) ++
      (if successParams.length > 1 then [Chunk.strC ['(']] else []) ++
      (match successParams with
       | [] => []
       | p :: ps =>
           [Chunk.strC (newNameFor names p.id)] ++
           ps.flatMap fun q =>
             [Chunk.strC ", ".data, Chunk.strC (newNameFor names q.id)]) ++
      (if successParams.length > 1 then [Chunk.strC [')']] else []) ++
      [Chunk.strC " = ".data]
    else []
  let callPre : List Chunk :=
    (if handlerDesc.hasError then [Chunk.strC "try ".data] else []) ++
    [Chunk.strC "await ".data, Chunk.srcRangeC ce.fnRangeText,
     Chunk.strC ['(']]
  let argChunks : List Chunk :=
    ((ce.args.dropLast.enum.filter fun a => ¬ a.2.isDefaultArg).enum.map
      fun a =>
        (if a.1 > 0 then [Chunk.strC ", ".data] else []) ++
        [Chunk.convertedArg a.2.1]).flatten
  bindings ++ callPre ++ argChunks ++ [Chunk.strC [')']]

/-- The `SuccessParams` slice `addHoistedClosureCallback` computes: all
callback parameters, without the trailing error parameter for a PARAMS
convention with an error. -/
def hoistSuccessParams (handlerDesc : MHandlerDescC)
    (callbackParams : List MClosureParam) : List MClosureParam :=
  if handlerDesc.type = HandlerType.RESULT then callbackParams
  else if handlerDesc.hasError then callbackParams.dropLast
  else callbackParams

/-- The `ErrParam` `addHoistedClosureCallback` computes: the last callback
parameter for the RESULT convention or an error-carrying PARAMS
convention. -/
def hoistErrParam (handlerDesc : MHandlerDescC)
    (callbackParams : List MClosureParam) : Option MClosureParam :=
  if handlerDesc.type = HandlerType.RESULT then callbackParams.getLast?
  else if handlerDesc.hasError then callbackParams.getLast?
  else none

/-- The classification stage of `addHoistedClosureCallback`: a handler
without an error routes the whole body to the success block; otherwise a
non-empty body is classified by `classifyInto` with the unwrappable
success parameters and the error parameter. -/
def hoistClassified (fuel : Nat) (handlerDesc : MHandlerDescC)
    (callbackParams : List MClosureParam) (callbackBody : MBraceStmt)
    (st : ConvState) : CState :=
  let successParams := hoistSuccessParams handlerDesc callbackParams
  let errParam := hoistErrParam handlerDesc callbackParams
  let bodyElements := match callbackBody with
    | MBraceStmt.mk els _ _ => els
  if ¬ handlerDesc.hasError then
    let sb : MClassifiedBlock :=
      { printed := MNodesToPrint.empty.addNodesInBraceStmt callbackBody }
    { success := sb, diag := st.diag,
      handledSwitches := st.handledSwitches }
  else if ¬ bodyElements.isEmpty then
    let unwrapParams :=
      (successParams.filter fun p => handlerDesc.shouldUnwrap p.ty).map
        (fun p => p.id) ++
      (errParam.map fun p => p.id).toList
    classifyInto fuel unwrapParams (errParam.map fun p => p.id)
      handlerDesc.type st.diag st.handledSwitches callbackBody
  else
    { diag := st.diag, handledSwitches := st.handledSwitches }

/-- `AsyncConverter::addHoistedClosureCallback`: classify the literal
closure passed as the completion handler and emit the hoisted call.  When
classification left a diagnostic: a non-PARAMS (i.e. RESULT) convention
aborts with nothing emitted, while the PARAMS convention clears the error
flag and retries in the permissive fallback mode — freshly prepared
parameter names, one optional `var` per parameter initialised to `nil`
ahead of a `do`, the awaited call assigned to those parameters, a `catch`
assigning the error parameter, and the original closure body reprinted
via `convertNodes`.  The diagnostic-free continuation is recorded as one
`classifiedContinuation` event (no claim depends on it). -/
def addHoistedClosureCallback (fuel : Nat) (ce : MCallExpr)
    (handlerDesc : MHandlerDescC) (callbackParams : List MClosureParam)
    (callbackBody : MBraceStmt) (st : ConvState) : ConvState :=
  if ¬ handlerDesc.params.length = callbackParams.length then
    { st with diag :=
        st.diag.diagnose (MDiag.mismatchedCallbackArgs ce.startLoc) }
  else
    let successParams := hoistSuccessParams handlerDesc callbackParams
    let errParam := hoistErrParam handlerDesc callbackParams
    let classified : CState :=
      hoistClassified fuel handlerDesc callbackParams callbackBody st
    let st :=
      { st with
        diag := classified.diag
        handledSwitches := classified.handledSwitches }
    if st.diag.hadAnyError then
      -- Can only fall back when the results are params.
      if ¬ handlerDesc.type = HandlerType.PARAMS then st
      else
        let st := { st with diag := { st.diag with hadAnyError := false } }
        -- All params stay valid in the fallback case: no unwrapping or
        -- placeholder replacement.
        let names := prepareNames st.names {} callbackParams
        let out :=
          addFallbackVars names callbackParams ++
          addDo ++
          addAwaitCall names ce classified.success successParams handlerDesc
            (¬ handlerDesc.hasError) ++
          addFallbackCatch names (errParam.map fun p => p.id) ++
          [Chunk.strC "\n".data,
           Chunk.convertedAll (MNodesToPrint.inBraceStmt callbackBody)]
        { st with
          names := clearNames names (callbackParams.map fun p => p.id),
          out := st.out ++ out }
    else
      { st with out := st.out ++
          [Chunk.classifiedContinuation classified.success classified.error] }


/-- What `setNodes` appends to its target block: the node set, with a
trailing return/break dropped when bare (statement helper for the theorems
below). -/
def setNodesAppended (ntp : MNodesToPrint) : MNodesToPrint :=
  if ntp.hasTrailingReturnOrBreak then ntp.dropTrailingReturnOrBreakIfPossible
  else ntp

/-- A switch case shape `classifySwitch` diagnoses: fallthrough, default,
multiple label items or a where-clause (statement helper). -/
def badCaseShape : MCaseStmt → Prop
  | MCaseStmt.mk _ hasFallthroughDest isDefault item moreItems _ =>
      hasFallthroughDest = true ∨ isDefault = true ∨
        moreItems.isEmpty = false ∨ item.whereValid = true

instance : DecidablePred badCaseShape := by
  intro c
  cases c with
  | mk loc f d item more body => simp only [badCaseShape]; infer_instance

/-- The split point computed by `splitAndRenameCallArg` when a colon sits at
index `colonIdx`: the length of the pre-colon text after right-trimming
(statement helper). -/
def callArgLabelLen (content : List Char) (colonIdx : Nat) : Nat :=
  ((content.take colonIdx).reverse.dropWhile isRTrimChar).length

/-- The index of the last separator character (`Content.find_last_of`) as
computed by `splitAndRenameParamLabel` (statement helper). -/
def paramLastSep (content : List Char) : Nat :=
  content.length - 1 -
    ((content.reverse.findIdx? isParamSeparatorChar).getD 0)

/-- The front phase of the lenient matcher, written in the (amended)
spec's terms over the *remaining* old labels rather than an index: the
first empty argument label consumes the first remaining empty old label
(skipping non-empty ones) and mismatches when there is none; a later
empty argument label is consumed against the next old label only if that
old label is itself empty (otherwise the empty argument is skipped as a
variadic/defaulted slot); a non-empty argument label consumes the next
remaining old label matching it (skipping non-matching ones) and
mismatches when none remains. -/
def lenientFrontRemaining (ty : LabelRangeType) :
    List MRange → List (List Char) → Bool → Bool
  | [], _, _ => false
  | label :: rest, rem, isFirst =>
    if label.text.length = 0 then
      if isFirst then
        match rem.findIdx? (fun o => o.isEmpty) with
        | none => true
        | some j => lenientFrontRemaining ty rest (rem.drop (j + 1)) false
      else
        match rem with
        | [] => lenientFrontRemaining ty rest [] false
        | o :: rem' =>
            if o.isEmpty then lenientFrontRemaining ty rest rem' false
            else lenientFrontRemaining ty rest (o :: rem') false
    else
      match rem.findIdx? (fun o => labelRangeMatches label.text ty o) with
      | none => true
      | some j => lenientFrontRemaining ty rest (rem.drop (j + 1)) false

/-- The lenient matcher in the (amended) spec's terms: the trailing
closure labels are matched against the old labels from the back in
reverse syntactic order, and the remaining labels are then matched
against the remaining old labels from the front by
`lenientFrontRemaining`. -/
def renameLabelsLenientSpec (old : List (List Char))
    (labelRanges : List MRange) (firstTrailingLabel : Option Nat)
    (ty : LabelRangeType) : Bool :=
  let k := firstTrailingLabel.getD labelRanges.length
  match lenientTrailingLoop old
      ((labelRanges.drop k).reverse.map (fun r => r.text)) with
  | none => true
  | some old' => lenientFrontRemaining ty (labelRanges.take k) old' true

/-- A span already carries the text the rename would request: for a label
emission the computed replacement equals the existing text, for a base
emission the base name is unchanged (statement helper). -/
def spanApplied (old new : DeclNameViewer) : RCall → Bool
  | RCall.labelCall range kind index =>
      getReplacementText range.text kind (old.args.getD index [])
        (new.args.getD index []) = range.text
  | RCall.baseCall _ _ => old.base = new.base

/-- Does a handler parameter list have the exactly-one-`Result`-parameter
shape of the `RESULT` convention? (statement helper). -/
def isSingleResult : List MTy → Bool
  | [MTy.resultTy _ _] => true
  | _ => false

/-! # Theorems -/

/-! ## C2: strict label matching -/

/-- The strict loop succeeds iff every label range matches the old label
at its position (offset by the running index). -/
theorem renameLabelsStrictLoop_false_iff (old : List (List Char))
    (ty : LabelRangeType) :
    ∀ (ranges : List MRange) (i : Nat),
      (renameLabelsStrictLoop old ty ranges i).1 = false ↔
        ∀ j, j < ranges.length →
          labelRangeMatches (ranges.getD j ⟨0, []⟩).text ty
            (old.getD (i + j) []) = true := by
  intro ranges
  induction ranges with
  | nil => intro i; simp [renameLabelsStrictLoop]
  | cons r rest ih =>
      intro i
      by_cases h : labelRangeMatches r.text ty (old.getD i []) = true
      · simp only [renameLabelsStrictLoop, h, not_true, if_neg,
          Bool.not_eq_true]
        rw [if_neg (by simp [h])]
        constructor
        · intro hrest j hj
          cases j with
          | zero => simpa using h
          | succ j =>
              have := (ih (i + 1)).mp (by simpa using hrest) j
                (by simpa using Nat.lt_of_succ_lt_succ hj)
              simpa [Nat.add_assoc, Nat.add_comm 1 j] using this
        · intro hall
          have : (renameLabelsStrictLoop old ty rest (i + 1)).1 = false := by
            rw [ih (i + 1)]
            intro j hj
            have := hall (j + 1) (by simpa using Nat.succ_lt_succ hj)
            simpa [Nat.add_assoc, Nat.add_comm 1 j] using this
          simpa using this
      · simp only [renameLabelsStrictLoop]
        rw [if_pos (by simpa using h)]
        constructor
        · intro hfalse; cases hfalse
        · intro hall
          exact absurd (by simpa using hall 0 (by simp)) h

/-- C2: in strict mode (declarations and non-call references), label
matching succeeds iff the occurrence's label count equals the old
compound name's label count and every label matches the corresponding old
label 1:1; an occurrence whose matching reports `Mismatch` hands the edit
consumer no replacements (and one mismatch diagnostic), and the rename
loop processes every occurrence independently of the others. -/
theorem C2_strict_match_abort_independent :
    (∀ (old : List (List Char)) (ranges : List MRange) (ty : LabelRangeType),
      (renameLabels old ranges none ty false).1 = false ↔
        (old.length = ranges.length ∧
          ∀ j, j < ranges.length →
            labelRangeMatches (ranges.getD j ⟨0, []⟩).text ty
              (old.getD j []) = true)) ∧
    (∀ (old new : DeclNameViewer) (resolved : MResolvedLoc)
        (config : MRenameConfig),
      (addSyntacticRenameRanges old resolved config).1 =
          RegionType.Mismatch →
        (syntacticRenameOne old new resolved config).edits = none ∧
        (syntacticRenameOne old new resolved config).diagnosedMismatch =
          true) ∧
    (∀ (old new : DeclNameViewer)
        (locs : List (MResolvedLoc × MRenameConfig)) (i : Nat)
        (h : i < locs.length),
      (syntacticRenameLoop old new locs).get
          ⟨i, by simpa [syntacticRenameLoop] using h⟩ =
        syntacticRenameOne old new (locs.get ⟨i, h⟩).1
          (locs.get ⟨i, h⟩).2) := by
  refine ⟨?_, ?_, ?_⟩
  · intro old ranges ty
    constructor
    · intro hok
      by_cases hlen : old.length = ranges.length
      · refine ⟨hlen, ?_⟩
        have : (renameLabelsStrictLoop old ty ranges 0).1 = false := by
          simpa [renameLabels, hlen] using hok
        have := (renameLabelsStrictLoop_false_iff old ty ranges 0).mp this
        simpa using this
      · simp [renameLabels, hlen] at hok
    · rintro ⟨hlen, hall⟩
      have : (renameLabelsStrictLoop old ty ranges 0).1 = false := by
        rw [renameLabelsStrictLoop_false_iff]
        simpa using hall
      simpa [renameLabels, hlen] using this
  · intro old new resolved config hmis
    simp [syntacticRenameOne, hmis]
  · intro old new locs i h
    simp [syntacticRenameLoop]

/-- Witness for C2 at concrete inputs: renaming `foo(a:)` at a declaration
occurrence whose label reads `x` is a mismatch with no edits, while a
matching occurrence succeeds. -/
theorem C2_strict_match_abort_independent_witness :
    ((renameLabels [['a']] [⟨4, ['x']⟩] none LabelRangeType.Param false).1 =
        false ↔
      ((1 : Nat) = 1 ∧
        ∀ j, j < ([⟨4, ['x']⟩] : List MRange).length →
          labelRangeMatches (([⟨4, ['x']⟩] : List MRange).getD j
              ⟨0, []⟩).text LabelRangeType.Param
            ([[['a']]].flatten.getD j []) = true)) ∧
    ((syntacticRenameOne ⟨"foo".data, [['a']]⟩ ⟨"bar".data, [['b']]⟩
        ⟨true, ⟨0, "foo".data⟩, false, false, false, true,
          LabelRangeType.Param, [⟨4, ['x']⟩], none⟩
        ⟨NameUsage.Definition, true, false⟩).edits = none) := by
  constructor
  · have h := C2_strict_match_abort_independent.1 [['a']]
      [⟨4, ['x']⟩] LabelRangeType.Param
    simpa using h
  · exact (C2_strict_match_abort_independent.2.1 ⟨"foo".data, [['a']]⟩
      ⟨"bar".data, [['b']]⟩
      ⟨true, ⟨0, "foo".data⟩, false, false, false, true,
        LabelRangeType.Param, [⟨4, ['x']⟩], none⟩
      ⟨NameUsage.Definition, true, false⟩ (by decide)).1

/-! ## C4: switch classification -/

theorem diag_setBlock (st : CState) (tag : Bool) (b : MClassifiedBlock) :
    (st.setBlock tag b).diag = st.diag := by
  cases tag <;> simp [CState.setBlock]

theorem handled_setBlock (st : CState) (tag : Bool) (b : MClassifiedBlock) :
    (st.setBlock tag b).handledSwitches = st.handledSwitches := by
  cases tag <;> simp [CState.setBlock]

theorem current_setBlock (st : CState) (tag : Bool) (b : MClassifiedBlock) :
    (st.setBlock tag b).current = st.current := by
  cases tag <;> simp [CState.setBlock]

theorem block_setBlock (st : CState) (tag : Bool) (b : MClassifiedBlock)
    (q : Bool) :
    (st.setBlock tag b).block q = if q = tag then b else st.block q := by
  cases tag <;> cases q <;> simp [CState.setBlock, CState.block]

theorem diag_addCommentTo (st : CState) (tag : Bool) (loc : Option Nat) :
    (st.addCommentTo tag loc).diag = st.diag := by
  simp [CState.addCommentTo, diag_setBlock]

theorem handled_addCommentTo (st : CState) (tag : Bool) (loc : Option Nat) :
    (st.addCommentTo tag loc).handledSwitches = st.handledSwitches := by
  simp [CState.addCommentTo, handled_setBlock]

theorem current_addCommentTo (st : CState) (tag : Bool) (loc : Option Nat) :
    (st.addCommentTo tag loc).current = st.current := by
  simp [CState.addCommentTo, current_setBlock]

theorem nodes_addCommentTo (st : CState) (tag : Bool) (loc : Option Nat)
    (q : Bool) :
    ((st.addCommentTo tag loc).block q).printed.nodes =
      (st.block q).printed.nodes := by
  simp only [CState.addCommentTo, block_setBlock]
  by_cases h : q = tag <;>
    simp [h, MNodesToPrint.addPossibleCommentLoc] <;>
    cases loc <;> simp

theorem diag_addBindingTo (st : CState) (tag : Bool)
    (cc : MCallbackCondition) :
    (st.addBindingTo tag cc).diag = st.diag := by
  simp [CState.addBindingTo, diag_setBlock]

theorem handled_addBindingTo (st : CState) (tag : Bool)
    (cc : MCallbackCondition) :
    (st.addBindingTo tag cc).handledSwitches = st.handledSwitches := by
  simp [CState.addBindingTo, handled_setBlock]

theorem current_addBindingTo (st : CState) (tag : Bool)
    (cc : MCallbackCondition) :
    (st.addBindingTo tag cc).current = st.current := by
  simp [CState.addBindingTo, current_setBlock]

theorem printed_addBinding (b : MClassifiedBlock) (cc : MCallbackCondition) :
    (b.addBinding cc).printed = b.printed := by
  unfold MClassifiedBlock.addBinding
  cases cc.bindPattern with
  | none => rfl
  | some bp =>
      cases h3 : bp.singleVar <;> dsimp only <;> (repeat' split) <;> rfl

theorem nodes_addBindingTo (st : CState) (tag : Bool)
    (cc : MCallbackCondition) (q : Bool) :
    ((st.addBindingTo tag cc).block q).printed.nodes =
      (st.block q).printed.nodes := by
  simp only [CState.addBindingTo, block_setBlock]
  by_cases h : q = tag <;> simp [h, printed_addBinding]

theorem diag_addAllNodesTo (st : CState) (tag : Bool) (ns : MNodesToPrint) :
    (st.addAllNodesTo tag ns).diag = st.diag := by
  simp [CState.addAllNodesTo, diag_setBlock]

theorem handled_addAllNodesTo (st : CState) (tag : Bool)
    (ns : MNodesToPrint) :
    (st.addAllNodesTo tag ns).handledSwitches = st.handledSwitches := by
  simp [CState.addAllNodesTo, handled_setBlock]

theorem nodes_addAllNodesTo (st : CState) (tag : Bool) (ns : MNodesToPrint)
    (q : Bool) :
    ((st.addAllNodesTo tag ns).block q).printed.nodes =
      (st.block q).printed.nodes ++ (if q = tag then ns.nodes else []) := by
  simp only [CState.addAllNodesTo, block_setBlock]
  by_cases h : q = tag <;> simp [h, MNodesToPrint.addNodes]

theorem diag_setNodes (st : CState) (tag other : Bool) (ns : MNodesToPrint) :
    (setNodes st tag other ns).diag = st.diag := by
  unfold setNodes
  split <;> simp [diag_addAllNodesTo]

theorem handled_setNodes (st : CState) (tag other : Bool)
    (ns : MNodesToPrint) :
    (setNodes st tag other ns).handledSwitches = st.handledSwitches := by
  unfold setNodes
  split <;> simp [handled_addAllNodesTo]

theorem block_setCurrent (st : CState) (c : Bool) (q : Bool) :
    CState.block { st with current := c } q = st.block q := by
  cases q <;> simp [CState.block]

theorem nodes_setNodes (st : CState) (tag other : Bool) (ns : MNodesToPrint)
    (q : Bool) :
    ((setNodes st tag other ns).block q).printed.nodes =
      (st.block q).printed.nodes ++
        (if q = tag then (setNodesAppended ns).nodes else []) := by
  unfold setNodes setNodesAppended
  split <;> simp [nodes_addAllNodesTo, block_setCurrent]

theorem ccFromCaseItem_success (subj : Option Nat) (sub : Option MBindInfo) :
    ccFromCaseItem subj
        (MPattern.enumElemP true true ['s', 'u', 'c', 'c', 'e', 's', 's']
          sub) =
      { type := MConditionType.NOT_NIL, subject := subj, bindPattern := sub,
        errorCase := false } := by
  simp only [ccFromCaseItem, ccFromEnumPattern]
  norm_num
  decide

theorem ccFromCaseItem_failure (subj : Option Nat) (sub : Option MBindInfo) :
    ccFromCaseItem subj
        (MPattern.enumElemP true true ['f', 'a', 'i', 'l', 'u', 'r', 'e']
          sub) =
      { type := MConditionType.NOT_NIL, subject := subj, bindPattern := sub,
        errorCase := true } := by
  simp only [ccFromCaseItem, ccFromEnumPattern]
  norm_num

theorem classifySwitchCases_bad (env : CEnv) (rb : Option Nat) :
    ∀ (cases : List MCaseStmt) (st : CState),
      st.diag.hadAnyError = false → (∃ c ∈ cases, badCaseShape c) →
      (classifySwitchCases env rb st cases).2 = false ∧
      (classifySwitchCases env rb st cases).1.diag.hadAnyError = true ∧
      (classifySwitchCases env rb st cases).1.handledSwitches =
        st.handledSwitches := by
  intro cases
  induction cases with
  | nil => intro st hd hex; simp at hex
  | cons c rest ih =>
      intro st hd hex
      cases c with
      | mk loc ft df item more body =>
          by_cases hbad : badCaseShape (MCaseStmt.mk loc ft df item more body)
          · rcases hbad with h | h | h | h
            · simp [classifySwitchCases, h, CState.diagnose,
                MDiagEngine.diagnose]
            · cases hft : ft
              · simp [classifySwitchCases, hft, h, CState.diagnose,
                  MDiagEngine.diagnose]
              · simp [classifySwitchCases, hft, CState.diagnose,
                  MDiagEngine.diagnose]
            · cases hft : ft
              · cases hdf : df
                · simp [classifySwitchCases, hft, hdf, h, CState.diagnose,
                    MDiagEngine.diagnose]
                · simp [classifySwitchCases, hft, hdf, CState.diagnose,
                    MDiagEngine.diagnose]
              · simp [classifySwitchCases, hft, CState.diagnose,
                  MDiagEngine.diagnose]
            · cases hft : ft
              · cases hdf : df
                · cases hmi : more.isEmpty
                  · simp [classifySwitchCases, hft, hdf, hmi, CState.diagnose,
                      MDiagEngine.diagnose]
                  · simp [classifySwitchCases, hft, hdf, hmi, h,
                      CState.diagnose, MDiagEngine.diagnose]
                · simp [classifySwitchCases, hft, hdf, CState.diagnose,
                    MDiagEngine.diagnose]
              · simp [classifySwitchCases, hft, CState.diagnose,
                  MDiagEngine.diagnose]
          · have hrest : ∃ c ∈ rest, badCaseShape c := by
              rcases hex with ⟨c', hc', hbad'⟩
              rcases List.mem_cons.mp hc' with rfl | hmem
              · exact absurd hbad' hbad
              · exact ⟨c', hmem, hbad'⟩
            have hft : ft = false := by
              by_contra hft
              exact hbad (Or.inl (by simpa using hft))
            have hdf : df = false := by
              by_contra hdf
              exact hbad (Or.inr (Or.inl (by simpa using hdf)))
            have hmi : more.isEmpty = true := by
              by_contra hmi
              exact hbad (Or.inr (Or.inr (Or.inl (by simpa using hmi))))
            have hwv : item.whereValid = false := by
              by_contra hwv
              exact hbad (Or.inr (Or.inr (Or.inr (by simpa using hwv))))
            have hmoreNil : ¬ more.isEmpty = false := by simp [hmi]
            simp only [classifySwitchCases, hft, hdf, hwv, hmoreNil,
              Bool.false_eq_true, if_false]
            -- the processed state keeps the diagnostics of st
            set cc := ccFromCaseItem env.errParam item.pattern with hcc
            set blockTag := if cc.errorCase = true then false else true
              with hbt
            set st1 := (st.addCommentTo st.current loc) with hst1
            set st2 := (if rest.isEmpty = true then
              st1.addCommentTo blockTag rb else st1) with hst2
            set st3 := setNodes st2 blockTag (¬ blockTag)
              (MNodesToPrint.inBraceStmt body) with hst3
            set st4 := st3.addBindingTo blockTag cc with hst4
            have hd4 : st4.diag = st.diag := by
              rw [hst4, hst3, hst2, hst1]
              rcases rest.isEmpty <;>
                simp [diag_addBindingTo, diag_setNodes, diag_addCommentTo]
            have hh4 : st4.handledSwitches = st.handledSwitches := by
              rw [hst4, hst3, hst2, hst1]
              rcases rest.isEmpty <;>
                simp [handled_addBindingTo, handled_setNodes,
                  handled_addCommentTo]
            have hd4' : st4.diag.hadAnyError = false := by rw [hd4]; exact hd
            simp only [hd4', if_neg, Bool.false_eq_true, not_false_eq_true]
            have := ih st4 hd4' hrest
            rw [hh4] at this
            simpa [hd4'] using this

theorem success_nodes_addCommentTo (st : CState) (tag : Bool)
    (loc : Option Nat) :
    (st.addCommentTo tag loc).success.printed.nodes =
      st.success.printed.nodes := by
  have h := nodes_addCommentTo st tag loc true
  simpa [CState.block] using h

theorem error_nodes_addCommentTo (st : CState) (tag : Bool)
    (loc : Option Nat) :
    (st.addCommentTo tag loc).error.printed.nodes =
      st.error.printed.nodes := by
  have h := nodes_addCommentTo st tag loc false
  simpa [CState.block] using h

theorem success_nodes_addBindingTo (st : CState) (tag : Bool)
    (cc : MCallbackCondition) :
    (st.addBindingTo tag cc).success.printed.nodes =
      st.success.printed.nodes := by
  have h := nodes_addBindingTo st tag cc true
  simpa [CState.block] using h

theorem error_nodes_addBindingTo (st : CState) (tag : Bool)
    (cc : MCallbackCondition) :
    (st.addBindingTo tag cc).error.printed.nodes =
      st.error.printed.nodes := by
  have h := nodes_addBindingTo st tag cc false
  simpa [CState.block] using h

theorem success_nodes_setNodes (st : CState) (tag other : Bool)
    (ns : MNodesToPrint) :
    (setNodes st tag other ns).success.printed.nodes =
      st.success.printed.nodes ++
        (if tag then (setNodesAppended ns).nodes else []) := by
  have h := nodes_setNodes st tag other ns true
  cases tag <;> simpa [CState.block] using h

theorem error_nodes_setNodes (st : CState) (tag other : Bool)
    (ns : MNodesToPrint) :
    (setNodes st tag other ns).error.printed.nodes =
      st.error.printed.nodes ++
        (if tag then [] else (setNodesAppended ns).nodes) := by
  have h := nodes_setNodes st tag other ns false
  cases tag <;> simpa [CState.block] using h

/-- C4: a switch on the `Result`-convention parameter with exactly the two
clean cases `.success` and `.failure` (no default, no fallthrough, a
single pattern each, no where-clause) assigns each case's body to that
case's block, raises no diagnostic and marks the switch handled; a switch
(on that subject) containing a fallthrough, default, multiple-pattern or
where-clause case raises a diagnostic and is left unclassified. -/
theorem C4_classifySwitch_shape (env : CEnv) (st : CState) (node : MNode)
    (sid : Nat) (loc : Option Nat) (subj rb : Option Nat)
    (hres : env.isResultParam = true) (hsubj : subj = env.errParam)
    (hdiag : st.diag.hadAnyError = false) :
    (∀ (loc1 loc2 : Option Nat) (sub1 sub2 : Option MBindInfo)
        (body1 body2 : MBraceStmt),
      (classifySwitch env st node sid loc subj
          [MCaseStmt.mk loc1 false false
             ⟨false, MPattern.enumElemP true true
               ['s', 'u', 'c', 'c', 'e', 's', 's'] sub1⟩ [] body1,
           MCaseStmt.mk loc2 false false
             ⟨false, MPattern.enumElemP true true
               ['f', 'a', 'i', 'l', 'u', 'r', 'e'] sub2⟩ [] body2]
          rb).diag = st.diag ∧
      (classifySwitch env st node sid loc subj
          [MCaseStmt.mk loc1 false false
             ⟨false, MPattern.enumElemP true true
               ['s', 'u', 'c', 'c', 'e', 's', 's'] sub1⟩ [] body1,
           MCaseStmt.mk loc2 false false
             ⟨false, MPattern.enumElemP true true
               ['f', 'a', 'i', 'l', 'u', 'r', 'e'] sub2⟩ [] body2]
          rb).handledSwitches = st.handledSwitches ++ [sid] ∧
      (classifySwitch env st node sid loc subj
          [MCaseStmt.mk loc1 false false
             ⟨false, MPattern.enumElemP true true
               ['s', 'u', 'c', 'c', 'e', 's', 's'] sub1⟩ [] body1,
           MCaseStmt.mk loc2 false false
             ⟨false, MPattern.enumElemP true true
               ['f', 'a', 'i', 'l', 'u', 'r', 'e'] sub2⟩ [] body2]
          rb).success.printed.nodes =
        st.success.printed.nodes ++
          (setNodesAppended (MNodesToPrint.inBraceStmt body1)).nodes ∧
      (classifySwitch env st node sid loc subj
          [MCaseStmt.mk loc1 false false
             ⟨false, MPattern.enumElemP true true
               ['s', 'u', 'c', 'c', 'e', 's', 's'] sub1⟩ [] body1,
           MCaseStmt.mk loc2 false false
             ⟨false, MPattern.enumElemP true true
               ['f', 'a', 'i', 'l', 'u', 'r', 'e'] sub2⟩ [] body2]
          rb).error.printed.nodes =
        st.error.printed.nodes ++
          (setNodesAppended (MNodesToPrint.inBraceStmt body2)).nodes) ∧
    (∀ (cases : List MCaseStmt), (∃ c ∈ cases, badCaseShape c) →
      (classifySwitch env st node sid loc subj cases rb).diag.hadAnyError =
        true ∧
      (classifySwitch env st node sid loc subj cases rb).handledSwitches =
        st.handledSwitches) := by
  have hguard : ¬ (¬ env.isResultParam = true ∨ ¬ (subj = env.errParam)) := by
    simp [hres, hsubj]
  constructor
  · intro loc1 loc2 sub1 sub2 body1 body2
    refine ⟨?_, ?_, ?_, ?_⟩ <;>
      simp [classifySwitch, classifySwitchCases,
        ccFromCaseItem_success, ccFromCaseItem_failure,
        diag_addBindingTo, diag_setNodes, diag_addCommentTo,
        handled_addBindingTo, handled_setNodes, handled_addCommentTo,
        success_nodes_addCommentTo, error_nodes_addCommentTo,
        success_nodes_addBindingTo, error_nodes_addBindingTo,
        success_nodes_setNodes, error_nodes_setNodes,
        hdiag, hres, hsubj]
  · intro cases hex
    simp only [classifySwitch, if_neg hguard]
    have hd1 : (st.addCommentTo st.current loc).diag.hadAnyError = false := by
      rw [diag_addCommentTo]; exact hdiag
    have hb := classifySwitchCases_bad env rb cases
      (st.addCommentTo st.current loc) hd1 hex
    rcases hb with ⟨hsnd, hderr, hhand⟩
    rw [hsnd]
    simp only [Bool.false_eq_true, if_false]
    exact ⟨hderr, by rw [hhand, handled_addCommentTo]⟩

/-- Witness for C4 at a concrete two-case switch and a concrete
default-case switch. -/
theorem C4_classifySwitch_shape_witness :
    ((classifySwitch ⟨[1], some 1, true⟩ {} (MNode.plainNode none) 77
        (some 5) (some 1)
        [MCaseStmt.mk (some 10) false false
           ⟨false, MPattern.enumElemP true true
             ['s', 'u', 'c', 'c', 'e', 's', 's'] none⟩ []
           (MBraceStmt.mk [MNode.plainNode (some 11)] (some 12) false),
         MCaseStmt.mk (some 20) false false
           ⟨false, MPattern.enumElemP true true
             ['f', 'a', 'i', 'l', 'u', 'r', 'e'] none⟩ []
           (MBraceStmt.mk [MNode.plainNode (some 21)] (some 22) false)]
        (some 30)).handledSwitches = [] ++ [77]) ∧
    ((classifySwitch ⟨[1], some 1, true⟩ {} (MNode.plainNode none) 77
        (some 5) (some 1)
        [MCaseStmt.mk (some 40) false true ⟨false, MPattern.otherP⟩ []
           (MBraceStmt.mk [] none true)]
        (some 30)).diag.hadAnyError = true) := by
  constructor
  · exact ((C4_classifySwitch_shape ⟨[1], some 1, true⟩ {}
      (MNode.plainNode none) 77 (some 5) (some 1) (some 30) (by decide)
      (by decide) (by decide)).1 (some 10) (some 20) none none
        (MBraceStmt.mk [MNode.plainNode (some 11)] (some 12) false)
        (MBraceStmt.mk [MNode.plainNode (some 21)] (some 22)
          false)).2.1
  · exact ((C4_classifySwitch_shape ⟨[1], some 1, true⟩ {}
      (MNode.plainNode none) 77 (some 5) (some 1) (some 30) (by decide)
      (by decide) (by decide)).2
      [MCaseStmt.mk (some 40) false true ⟨false, MPattern.otherP⟩ []
         (MBraceStmt.mk [] none true)]
      ⟨MCaseStmt.mk (some 40) false true ⟨false, MPattern.otherP⟩ []
         (MBraceStmt.mk [] none true), by simp,
       Or.inr (Or.inl rfl)⟩).1

/-! ## C5: partially recognized conditions -/

/-- Counterexample to C5 as stated.  First scenario: the only recognized
condition is a non-nil (optional-binding) test on the error parameter —
not a NIL test — together with an unrecognized condition and no else; the
claim routes the statement to the Success block, but the code routes it to
the Error block.  Second scenario: zero conditions are recognized and an
else branch is present; the claim raises a diagnostic and aborts the node,
but the code adds the statement to the current (success) block with no
diagnostic. -/
theorem C5_counterexample :
    -- scenario 1: recognized err-param NOT_NIL + unknown condition, no else
    (((ccAll
        [MCondElem.patC (MPattern.optionalSomeP
           (some ⟨true, true, ['e'], some 101⟩)) (MInit.initRef 1),
         MCondElem.boolC MExpr.otherE] [0, 1]).2.all
        (fun e => ¬ e.2.type = MConditionType.NIL)) = true) ∧
    ((classifyConditionalGen (fun s _ _ => s) ⟨[0, 1], some 1, false⟩ {}
        (MNode.plainNode (some 50))
        [MCondElem.patC (MPattern.optionalSomeP
           (some ⟨true, true, ['e'], some 101⟩)) (MInit.initRef 1),
         MCondElem.boolC MExpr.otherE]
        MNodesToPrint.empty none).error.printed.nodes.length = 1) ∧
    ((classifyConditionalGen (fun s _ _ => s) ⟨[0, 1], some 1, false⟩ {}
        (MNode.plainNode (some 50))
        [MCondElem.patC (MPattern.optionalSomeP
           (some ⟨true, true, ['e'], some 101⟩)) (MInit.initRef 1),
         MCondElem.boolC MExpr.otherE]
        MNodesToPrint.empty none).success.printed.nodes.length = 0) ∧
    -- scenario 2: zero recognized conditions, else present
    ((ccAll [MCondElem.boolC MExpr.otherE] [0, 1]) = (false, [])) ∧
    ((classifyConditionalGen (fun s _ _ => s) ⟨[0, 1], some 1, false⟩ {}
        (MNode.plainNode (some 50)) [MCondElem.boolC MExpr.otherE]
        MNodesToPrint.empty
        (some (MBranch.braceB (MBraceStmt.mk [] none true)))).diag.emitted =
      []) ∧
    ((classifyConditionalGen (fun s _ _ => s) ⟨[0, 1], some 1, false⟩ {}
        (MNode.plainNode (some 50)) [MCondElem.boolC MExpr.otherE]
        MNodesToPrint.empty
        (some (MBranch.braceB
          (MBraceStmt.mk [] none true)))).success.printed.nodes.length =
      1) := by
  refine ⟨by decide, by decide, by decide, by decide, by decide, by decide⟩

/-- C5 (amended): when the conditions of an if/guard are not all
recognized: with zero recognized conditions the whole statement goes to
the current block unchanged (no diagnostic, even when an else branch is
present); with at least one recognized condition, an else branch raises a
diagnostic and aborts the node, and without an else the statement is
routed as a unit — to the Error block when the recognized error-parameter
condition is a non-nil test or when any recognized condition is a NIL
test, and to the Success block otherwise. -/
theorem C5_partially_recognized_conditions
    (recNodes : CState → List MNode → Option Nat → CState) (env : CEnv)
    (st : CState) (statement : MNode) (condition : List MCondElem)
    (thenNodes : MNodesToPrint) (elseStmt : Option MBranch)
    (hunhandled : (ccAll condition env.unwrapParams).1 = false) :
    ((ccAll condition env.unwrapParams).2 = [] →
      classifyConditionalGen recNodes env st statement condition thenNodes
        elseStmt = st.addNodeTo st.current statement) ∧
    (¬ (ccAll condition env.unwrapParams).2 = [] → elseStmt.isSome →
      classifyConditionalGen recNodes env st statement condition thenNodes
        elseStmt =
        st.diagnose (MDiag.unknownCallbackConditions statement.startLoc)) ∧
    (∀ err, ¬ (ccAll condition env.unwrapParams).2 = [] → elseStmt = none →
      ((((ccAll condition env.unwrapParams).2.find?
            fun e => some e.1 = env.errParam).map fun e => e.2).getD {} =
          err) →
      ((err.isValid ∧ err.type = MConditionType.NOT_NIL) ∨
          (¬ (err.isValid ∧ err.type = MConditionType.NOT_NIL) ∧
            (ccAll condition env.unwrapParams).2.any
              (fun e => e.2.type = MConditionType.NIL) = true) →
        classifyConditionalGen recNodes env st statement condition thenNodes
          elseStmt = st.addNodeTo false statement) ∧
      (¬ (err.isValid ∧ err.type = MConditionType.NOT_NIL) →
        (ccAll condition env.unwrapParams).2.any
          (fun e => e.2.type = MConditionType.NIL) = false →
        classifyConditionalGen recNodes env st statement condition thenNodes
          elseStmt = st.addNodeTo true statement)) := by
  refine ⟨?_, ?_, ?_⟩
  · intro hempty
    simp [classifyConditionalGen, hunhandled, hempty]
  · intro hne hsome
    simp [classifyConditionalGen, hunhandled, hne, hsome]
  · intro err hne helse herr
    constructor
    · rintro (⟨hv, ht⟩ | ⟨hnv, hnil⟩)
      · simp [classifyConditionalGen, hunhandled, hne, helse, herr, hv, ht]
      · simp [classifyConditionalGen, hunhandled, hne, helse, herr, hnil]
    · intro hnv hnonil
      simp only [classifyConditionalGen, hunhandled]
      simp [hne, helse, herr, hnonil]
      intro h1 h2
      exact absurd ⟨h1, h2⟩ hnv

/-- Witness for C5 (amended) at the concrete scenarios of the
counterexample. -/
theorem C5_partially_recognized_conditions_witness :
    (classifyConditionalGen (fun s _ _ => s) ⟨[0, 1], some 1, false⟩ {}
      (MNode.plainNode (some 50))
      [MCondElem.patC (MPattern.optionalSomeP
         (some ⟨true, true, ['e'], some 101⟩)) (MInit.initRef 1),
       MCondElem.boolC MExpr.otherE]
      MNodesToPrint.empty none =
      CState.addNodeTo {} false (MNode.plainNode (some 50))) ∧
    (classifyConditionalGen (fun s _ _ => s) ⟨[0, 1], some 1, false⟩ {}
      (MNode.plainNode (some 50)) [MCondElem.boolC MExpr.otherE]
      MNodesToPrint.empty
      (some (MBranch.braceB (MBraceStmt.mk [] none true))) =
      CState.addNodeTo {} (CState.current {}) (MNode.plainNode (some 50))) := by
  constructor
  · exact (((C5_partially_recognized_conditions (fun s _ _ => s)
      ⟨[0, 1], some 1, false⟩ {} (MNode.plainNode (some 50))
      [MCondElem.patC (MPattern.optionalSomeP
         (some ⟨true, true, ['e'], some 101⟩)) (MInit.initRef 1),
       MCondElem.boolC MExpr.otherE]
      MNodesToPrint.empty none (by decide)).2.2
      { type := MConditionType.NOT_NIL, subject := some 1,
        bindPattern := some ⟨true, true, ['e'], some 101⟩,
        errorCase := false }
      (by decide) rfl (by decide)).1 (Or.inl (by decide)))
  · exact (C5_partially_recognized_conditions (fun s _ _ => s)
      ⟨[0, 1], some 1, false⟩ {} (MNode.plainNode (some 50))
      [MCondElem.boolC MExpr.otherE] MNodesToPrint.empty
      (some (MBranch.braceB (MBraceStmt.mk [] none true)))
      (by decide)).1 (by decide)

/-! ## C7: collision-free name synthesis -/

theorem toDecimalAux_length_pos :
    ∀ (fuel n : Nat), 0 < fuel → 0 < (toDecimalAux fuel n).length := by
  intro fuel n hf
  cases fuel with
  | zero => cases hf
  | succ f =>
      by_cases h : n < 10 <;> simp [toDecimalAux, h]

theorem toDecimalAux_length_ge :
    ∀ (fuel m n : Nat), n < fuel → 10 ^ m ≤ n →
      m + 1 ≤ (toDecimalAux fuel n).length := by
  intro fuel
  induction fuel with
  | zero => intro m n h; cases h
  | succ f ih =>
      intro m n hlt hpow
      by_cases hsmall : n < 10
      · cases m with
        | zero => simp [toDecimalAux, hsmall]
        | succ m' =>
            exfalso
            have h10 : 10 ≤ 10 ^ (m' + 1) := by
              calc 10 = 10 ^ 1 := by norm_num
              _ ≤ 10 ^ (m' + 1) := Nat.pow_le_pow_right (by norm_num)
                  (by omega)
            omega
      · simp only [toDecimalAux, hsmall, if_neg, List.length_append,
          List.length_cons, List.length_nil, not_false_eq_true]
        cases m with
        | zero =>
            have := toDecimalAux_length_pos f (n / 10)
            by_cases hf : 0 < f
            · have := this hf; omega
            · exfalso
              have hn : n ≤ f := Nat.lt_succ_iff.mp hlt
              omega
        | succ m' =>
            have hdiv : 10 ^ m' ≤ n / 10 := by
              rw [Nat.le_div_iff_mul_le (by norm_num : 0 < 10)]
              calc 10 ^ m' * 10 = 10 ^ (m' + 1) := by ring
              _ ≤ n := hpow
            have hlt' : n / 10 < f := by
              have h1 : n / 10 < n := Nat.div_lt_self (by omega) (by norm_num)
              have h2 : n ≤ f := Nat.lt_succ_iff.mp hlt
              omega
            have := ih m' (n / 10) hlt' hdiv
            omega

theorem stdToString_length_ge (m n : Nat) (h : 10 ^ m ≤ n) :
    m + 1 ≤ (stdToString n).length :=
  toDecimalAux_length_ge (n + 1) m n (Nat.lt_succ_self n) h

theorem scopeMaxLen_ge (scope : List (List Char)) :
    ∀ s ∈ scope, s.length ≤ scopeMaxLen scope := by
  induction scope with
  | nil => intro s h; cases h
  | cons a rest ih =>
      intro s hs
      rcases List.mem_cons.mp hs with rfl | hmem
      · simp [scopeMaxLen]
      · have := ih s hmem
        simp only [scopeMaxLen, List.foldr_cons]
        have : s.length ≤ List.foldr (fun s m => max s.length m) 0 rest :=
          this
        omega

theorem fresh_candidate_not_mem (name : List Char)
    (scope : List (List Char)) :
    (name ++ stdToString (10 ^ scopeMaxLen scope)) ∉ scope := by
  intro hmem
  have h1 := scopeMaxLen_ge scope _ hmem
  have h2 : scopeMaxLen scope + 1 ≤
      (stdToString (10 ^ scopeMaxLen scope)).length :=
    stdToString_length_ge _ _ (Nat.le_refl _)
  simp only [List.length_append] at h1
  omega

theorem createUniqueNameLoop_spec (name : List Char)
    (scope : List (List Char)) :
    ∀ (fuel k : Nat),
      (∃ j, k ≤ j ∧ j < k + fuel ∧ (name ++ stdToString j) ∉ scope) →
      ∃ j, k ≤ j ∧
        createUniqueNameLoop name scope k fuel = name ++ stdToString j ∧
        (name ++ stdToString j) ∉ scope ∧
        ∀ i, k ≤ i → i < j → (name ++ stdToString i) ∈ scope := by
  intro fuel
  induction fuel with
  | zero =>
      intro k ⟨j, hk, hj, _⟩
      omega
  | succ f ih =>
      intro k hex
      by_cases hmem : (name ++ stdToString k) ∈ scope
      · have hex' : ∃ j, k + 1 ≤ j ∧ j < (k + 1) + f ∧
            (name ++ stdToString j) ∉ scope := by
          rcases hex with ⟨j, hk, hj, hnot⟩
          refine ⟨j, ?_, by omega, hnot⟩
          rcases Nat.eq_or_lt_of_le hk with rfl | h
          · exact absurd hmem hnot
          · omega
        rcases ih (k + 1) hex' with ⟨j, hk1, heq, hnot, hmin⟩
        refine ⟨j, by omega, ?_, hnot, ?_⟩
        · simpa [createUniqueNameLoop, hmem] using heq
        · intro i hki hij
          rcases Nat.eq_or_lt_of_le hki with rfl | h
          · exact hmem
          · exact hmin i h hij
      · refine ⟨k, Nat.le_refl k, ?_, hmem, by omega⟩
        simp [createUniqueNameLoop, hmem]

theorem createUniqueName_spec (name : List Char) (scope : List (List Char)) :
    (name ∉ scope → createUniqueName name scope = name) ∧
    (name ∈ scope →
      ∃ k, 1 ≤ k ∧
        createUniqueName name scope = name ++ stdToString k ∧
        (name ++ stdToString k) ∉ scope ∧
        ∀ i, 1 ≤ i → i < k → (name ++ stdToString i) ∈ scope) := by
  constructor
  · intro h; simp [createUniqueName, h]
  · intro h
    have hex : ∃ j, 1 ≤ j ∧ j < 1 + 10 ^ (scopeMaxLen scope + 1) ∧
        (name ++ stdToString j) ∉ scope := by
      refine ⟨10 ^ scopeMaxLen scope, Nat.one_le_pow _ _ (by norm_num), ?_,
        fresh_candidate_not_mem name scope⟩
      have : (10 : Nat) ^ scopeMaxLen scope ≤
          10 ^ (scopeMaxLen scope + 1) :=
        Nat.pow_le_pow_right (by norm_num) (by omega)
      omega
    rcases createUniqueNameLoop_spec name scope
      (10 ^ (scopeMaxLen scope + 1)) 1 hex with ⟨k, hk1, heq, hnot, hmin⟩
    exact ⟨k, hk1, by simpa [createUniqueName, h] using heq, hnot, hmin⟩

theorem createUniqueName_not_mem (name : List Char)
    (scope : List (List Char)) : createUniqueName name scope ∉ scope := by
  by_cases h : name ∈ scope
  · rcases (createUniqueName_spec name scope).2 h with
      ⟨k, _, heq, hnot, _⟩
    rw [heq]; exact hnot
  · rw [(createUniqueName_spec name scope).1 h]; exact h

theorem currentScope_insertCurrent (st : ConvNames) (n : List Char) :
    (st.insertCurrent n).currentScope = n :: st.currentScope := by
  cases h : st.scopedNames <;>
    simp [ConvNames.insertCurrent, ConvNames.currentScope, h]

/-- The behaviour of one `assignUniqueName` call: with an empty base name
(empty bound name and nameless declaration) nothing happens; otherwise the
chosen base is the bound name when non-empty and the declaration's name
otherwise, a `$`-led base is turned into `val` + its remaining characters,
the assigned identifier is unique against the current scope, and it is
pushed onto the current scope's name set. -/
theorem assignUniqueName_spec (st : ConvNames) (d : MDeclRef)
    (boundName : List Char) :
    (((if boundName.isEmpty then d.declName else boundName) = []) →
      assignUniqueName st d boundName = ([], st)) ∧
    (¬ ((if boundName.isEmpty then d.declName else boundName) = []) →
      ((assignUniqueName st d boundName).1 ∉ st.currentScope ∧
       (assignUniqueName st d boundName).2.currentScope =
         (assignUniqueName st d boundName).1 :: st.currentScope ∧
       (¬ (if boundName.isEmpty then d.declName
            else boundName).head? = some '$' →
         (assignUniqueName st d boundName).1 =
           createUniqueName
             (if boundName.isEmpty then d.declName else boundName)
             st.currentScope) ∧
       ((if boundName.isEmpty then d.declName
            else boundName).head? = some '$' →
         (assignUniqueName st d boundName).1 =
           createUniqueName
             ("val".data ++
               (if boundName.isEmpty then d.declName
                 else boundName).drop 1)
             st.currentScope))) := by
  constructor
  · intro hempty
    by_cases hb : boundName.isEmpty = true
    · have hd : d.declName = [] := by simpa [hb] using hempty
      simp [assignUniqueName, hb, hd]
    · have hbn : boundName = [] := by simpa [hb] using hempty
      simp [List.isEmpty_iff] at hb
      exact absurd hbn hb
  · intro hne
    have hne' : (if boundName.isEmpty then d.declName
        else boundName).isEmpty = false := by
      simpa [List.isEmpty_iff] using hne
    by_cases hdollar : (if boundName.isEmpty then d.declName
        else boundName).head? = some '$'
    · refine ⟨?_, ?_, fun h => absurd hdollar h, fun _ => ?_⟩
      · simp only [assignUniqueName, hne', hdollar, if_pos,
          Bool.false_eq_true, if_false]
        exact createUniqueName_not_mem _ _
      · simp only [assignUniqueName, hne', hdollar, if_pos,
          Bool.false_eq_true, if_false]
        exact currentScope_insertCurrent st _
      · simp only [assignUniqueName, hne', hdollar, if_pos,
          Bool.false_eq_true, if_false]
    · refine ⟨?_, ?_, fun _ => ?_, fun h => absurd h hdollar⟩
      · simp only [assignUniqueName, hne', hdollar, if_neg,
          Bool.false_eq_true, if_false]
        exact createUniqueName_not_mem _ _
      · simp only [assignUniqueName, hne', hdollar, if_neg,
          Bool.false_eq_true, if_false]
        exact currentScope_insertCurrent st _
      · simp only [assignUniqueName, hne', hdollar, if_neg,
          Bool.false_eq_true, if_false]

theorem foldl_scope_growth {α : Type} (f : ConvNames → α → ConvNames)
    (hf : ∀ (st : ConvNames) (p : α),
      (f st p).currentScope = st.currentScope ∨
      ∃ idn, (f st p).currentScope = idn :: st.currentScope ∧
        idn ∉ st.currentScope) :
    ∀ (params : List α) (st : ConvNames),
      ∃ newNames,
        (params.foldl f st).currentScope = newNames ++ st.currentScope ∧
        newNames.Nodup ∧ ∀ n ∈ newNames, n ∉ st.currentScope := by
  intro params
  induction params with
  | nil => intro st; exact ⟨[], by simp, by simp, by simp⟩
  | cons p ps ih =>
      intro st
      rcases hf st p with hsame | ⟨idn, hcons, hnot⟩
      · rcases ih (f st p) with ⟨newNames, heq, hnd, hfresh⟩
        exact ⟨newNames, by simpa [hsame] using heq, hnd,
          fun n hn => by
            have := hfresh n hn
            rw [hsame] at this
            exact this⟩
      · rcases ih (f st p) with ⟨newNames, heq, hnd, hfresh⟩
        refine ⟨newNames ++ [idn], ?_, ?_, ?_⟩
        · rw [List.foldl_cons, heq, hcons]
          simp
        · rw [List.nodup_append]
          refine ⟨hnd, by simp, ?_⟩
          intro a ha hb
          have hb' : a = idn := by simpa using hb
          subst hb'
          have := hfresh a ha
          rw [hcons] at this
          exact this (List.mem_cons_self _ _)
        · intro n hn
          rcases List.mem_append.mp hn with h | h
          · have := hfresh n h
            rw [hcons] at this
            exact fun hmem => this (List.mem_cons_of_mem _ hmem)
          · have hn' : n = idn := by simpa using h
            subst hn'
            exact hnot

theorem currentScope_aliasFold (block : MClassifiedBlock) :
    ∀ (st : ConvNames),
      (block.aliases.foldl
        (fun s al =>
          match al.2 with
          | some subj =>
              match s.lookup subj with
              | some v => { s with names := alistSet s.names al.1 v }
              | none => s
          | none => s)
        st).currentScope = st.currentScope := by
  induction block.aliases with
  | nil => intro st; rfl
  | cons al rest ih =>
      intro st
      rw [List.foldl_cons, ih]
      rcases al.2 with _ | subj
      · rfl
      · simp only []
        rcases st.lookup subj with _ | v <;>
          simp [ConvNames.currentScope]

/-- C7: every synthesized identifier is unique.  `createUniqueName` never
returns a name in the current scope's set, returns the base name itself
when it is free, and otherwise appends the smallest positive integer
suffix making it unused; `assignUniqueName` prefers the bound pattern name
over the declaration's own name and pushes the result into the current
scope's set; consequently the names synthesized by `prepareNames` are
pairwise distinct and disjoint from the names already in scope. -/
theorem C7_unique_name_synthesis :
    (∀ (name : List Char) (scope : List (List Char)),
      createUniqueName name scope ∉ scope) ∧
    (∀ (name : List Char) (scope : List (List Char)), name ∉ scope →
      createUniqueName name scope = name) ∧
    (∀ (name : List Char) (scope : List (List Char)), name ∈ scope →
      ∃ k, 1 ≤ k ∧
        createUniqueName name scope = name ++ stdToString k ∧
        (name ++ stdToString k) ∉ scope ∧
        ∀ i, 1 ≤ i → i < k → (name ++ stdToString i) ∈ scope) ∧
    (∀ (st : ConvNames) (d : MDeclRef) (boundName : List Char),
      (¬ boundName = [] → ¬ boundName.head? = some '$' →
        (assignUniqueName st d boundName).1 =
          createUniqueName boundName st.currentScope) ∧
      (boundName = [] → ¬ d.declName = [] →
          ¬ d.declName.head? = some '$' →
        (assignUniqueName st d boundName).1 =
          createUniqueName d.declName st.currentScope) ∧
      (¬ (if boundName.isEmpty then d.declName else boundName) = [] →
        (assignUniqueName st d boundName).1 ∉ st.currentScope ∧
        (assignUniqueName st d boundName).2.currentScope =
          (assignUniqueName st d boundName).1 :: st.currentScope)) ∧
    (∀ (st : ConvNames) (block : MClassifiedBlock)
        (params : List MClosureParam) (addIfMissing : Bool),
      ∃ newNames,
        (prepareNames st block params addIfMissing).currentScope =
          newNames ++ st.currentScope ∧
        newNames.Nodup ∧ ∀ n ∈ newNames, n ∉ st.currentScope) := by
  refine ⟨createUniqueName_not_mem,
    fun name scope => (createUniqueName_spec name scope).1,
    fun name scope => (createUniqueName_spec name scope).2, ?_, ?_⟩
  · intro st d boundName
    refine ⟨?_, ?_, ?_⟩
    · intro hne hdollar
      have hb : boundName.isEmpty = false := by
        simpa [List.isEmpty_iff] using hne
      have h := (assignUniqueName_spec st d boundName).2
        (by simp [hb, hne])
      have := h.2.2.1 (by simpa [hb] using hdollar)
      simpa [hb] using this
    · intro hbe hne hdollar
      have hb : boundName.isEmpty = true := by simp [hbe]
      have h := (assignUniqueName_spec st d boundName).2
        (by simp [hb, hne])
      have := h.2.2.1 (by simpa [hb] using hdollar)
      simpa [hb] using this
    · intro hne
      have h := (assignUniqueName_spec st d boundName).2 hne
      exact ⟨h.1, h.2.1⟩
  · intro st block params addIfMissing
    have hstep : ∀ (s : ConvNames) (pd : MClosureParam),
        ((fun s pd =>
          let name := block.boundName (some pd.id)
          if ¬ name.isEmpty ∨ addIfMissing then
            (assignUniqueName s { id := pd.id, declName := pd.name }
              name).2
          else s) s pd).currentScope = s.currentScope ∨
        ∃ idn, ((fun s pd =>
          let name := block.boundName (some pd.id)
          if ¬ name.isEmpty ∨ addIfMissing then
            (assignUniqueName s { id := pd.id, declName := pd.name }
              name).2
          else s) s pd).currentScope = idn :: s.currentScope ∧
          idn ∉ s.currentScope := by
      intro s pd
      by_cases hc : ¬ (block.boundName (some pd.id)).isEmpty = true ∨
          addIfMissing = true
      · by_cases hbase : (if (block.boundName (some pd.id)).isEmpty then
            (MDeclRef.mk pd.id pd.name).declName
          else block.boundName (some pd.id)) = []
        · left
          have := (assignUniqueName_spec s
            { id := pd.id, declName := pd.name }
            (block.boundName (some pd.id))).1 hbase
          simp only [hc, if_pos]
          rw [this]
        · right
          have h := (assignUniqueName_spec s
            { id := pd.id, declName := pd.name }
            (block.boundName (some pd.id))).2 hbase
          refine ⟨(assignUniqueName s { id := pd.id, declName := pd.name }
            (block.boundName (some pd.id))).1, ?_, h.1⟩
          simp only [hc, if_pos]
          exact h.2.1
      · left
        have hc' : ¬ (¬ block.boundName (some pd.id) = [] ∨
            addIfMissing = true) := by
          simpa [List.isEmpty_iff] using hc
        simp [hc']
    have hmain := foldl_scope_growth _ hstep params st
    rcases hmain with ⟨newNames, heq, hnd, hfresh⟩
    refine ⟨newNames, ?_, hnd, hfresh⟩
    unfold prepareNames
    rw [currentScope_aliasFold]
    exact heq

/-- Witness for C7 at concrete inputs: uniquing `x` against a scope
already containing `x` and `x1` yields `x2`, which is not in the scope. -/
theorem C7_unique_name_synthesis_witness :
    createUniqueName "x".data ["x".data, "x1".data] ∉
      ["x".data, "x1".data] ∧
    createUniqueName "x".data ["x".data, "x1".data] = "x2".data ∧
    (createUniqueName "x".data ["x".data, "x1".data] ∉ ["y".data] →
      createUniqueName (createUniqueName "x".data ["x".data, "x1".data])
        ["y".data] = createUniqueName "x".data ["x".data, "x1".data]) := by
  refine ⟨C7_unique_name_synthesis.1 "x".data ["x".data, "x1".data],
    by decide, ?_⟩
  intro h
  exact C7_unique_name_synthesis.2.1 _ ["y".data] h

/-! ## C10: anonymous-parameter names and nameless declarations -/

/-- C10: when the chosen base name (the bound pattern name, else the
declaration's name) begins with `$`, the synthesized identifier is `val`
followed by the characters after the `$`, uniquified against the current
scope by the usual suffix scheme (in particular it is not in the scope);
a declaration whose chosen name is empty gets no synthesized name and
leaves the state untouched. -/
theorem C10_dollar_and_empty_names (st : ConvNames) (d : MDeclRef)
    (boundName : List Char) :
    (((if boundName.isEmpty then d.declName else boundName).head? =
        some '$') →
      (assignUniqueName st d boundName).1 =
        createUniqueName
          ("val".data ++
            (if boundName.isEmpty then d.declName else boundName).drop 1)
          st.currentScope ∧
      (assignUniqueName st d boundName).1 ∉ st.currentScope) ∧
    (((if boundName.isEmpty then d.declName else boundName) = []) →
      assignUniqueName st d boundName = ([], st)) := by
  constructor
  · intro hdollar
    have hne : ¬ (if boundName.isEmpty then d.declName
        else boundName) = [] := by
      intro h
      rw [h] at hdollar
      simp at hdollar
    have h := (assignUniqueName_spec st d boundName).2 hne
    exact ⟨h.2.2.2 hdollar, h.1⟩
  · exact (assignUniqueName_spec st d boundName).1

/-- Witness for C10: a bound name `$0` with scope `{x}` becomes `val0`,
and a nameless declaration gets nothing. -/
theorem C10_dollar_and_empty_names_witness :
    ((assignUniqueName ⟨[], [["x".data]]⟩ ⟨7, []⟩ "$0".data).1 =
        createUniqueName ("val".data ++ ("$0".data).drop 1)
          (ConvNames.currentScope ⟨[], [["x".data]]⟩) ∧
      (assignUniqueName ⟨[], [["x".data]]⟩ ⟨7, []⟩ "$0".data).1 ∉
        ConvNames.currentScope ⟨[], [["x".data]]⟩) ∧
    assignUniqueName ⟨[], [["x".data]]⟩ ⟨7, []⟩ [] = ([], ⟨[], [["x".data]]⟩) := by
  constructor
  · have h := (C10_dollar_and_empty_names ⟨[], [["x".data]]⟩ ⟨7, []⟩
      "$0".data).1 (by decide)
    simpa using h
  · exact (C10_dollar_and_empty_names ⟨[], [["x".data]]⟩ ⟨7, []⟩ []).2
      (by decide)

/-! ## C8: label splitting -/

/-- Taking `l.length - n` elements after dropping `n` takes the whole
remainder. -/
theorem drop_take_sub {α : Type} (l : List α) (n : Nat) :
    (l.drop n).take (l.length - n) = l.drop n := by
  rw [← List.length_drop]
  exact List.take_length _

/-- Unfolding `splitAndRenameCallArg` when a colon is present: the label
sub-range keeps `callArgLabelLen` characters and the colon sub-range takes
the rest. -/
theorem splitAndRenameCallArg_some (r : MRange) (i c : Nat)
    (hc : r.text.findIdx? (fun ch => ch = ':') = some c) :
    splitAndRenameCallArg r i =
      [RCall.labelCall (r.sub 0 (callArgLabelLen r.text c))
         RefactoringRangeKind.CallArgumentLabel i,
       RCall.labelCall (r.sub (callArgLabelLen r.text c)
           (r.text.length - callArgLabelLen r.text c))
         RefactoringRangeKind.CallArgumentColon i] := by
  simp only [splitAndRenameCallArg, callArgLabelLen, hc]

/-- Unfolding `splitAndRenameParamLabel` when a separator is present: the
external label ends at the first separator, the local name starts at the
last separator (at it when collapsible, after it when not). -/
theorem splitAndRenameParamLabel_some (r : MRange) (i f : Nat) (co : Bool)
    (hf : r.text.findIdx? isParamSeparatorChar = some f) :
    splitAndRenameParamLabel r i co =
      [RCall.labelCall (r.sub 0 f) RefactoringRangeKind.DeclArgumentLabel i,
       RCall.labelCall
         (r.sub (if co then paramLastSep r.text else paramLastSep r.text + 1)
           (r.text.length - (if co then paramLastSep r.text
             else paramLastSep r.text + 1)))
         (if co then RefactoringRangeKind.ParameterName
          else RefactoringRangeKind.NoncollapsibleParameterName) i] := by
  simp only [splitAndRenameParamLabel, paramLastSep, hf]

/-- C8 counterexample: splitting the collapsible parameter span `"a  b"`
(two separator characters) emits the external label `"a"` ending at offset
11 and an internal-name sub-span starting at offset 12 (the *last*
separator), so the emitted sub-spans are not contiguous and the middle
space belongs to neither — characters are lost, refuting the exact-cover
claim for parameter spans. -/
theorem C8_counterexample :
    splitAndRenameParamLabel ⟨10, ['a', ' ', ' ', 'b']⟩ 0 true =
      [RCall.labelCall ⟨10, ['a']⟩ RefactoringRangeKind.DeclArgumentLabel 0,
       RCall.labelCall ⟨12, [' ', 'b']⟩ RefactoringRangeKind.ParameterName 0]
    ∧ ¬ 12 = 10 + (['a'] : List Char).length
    ∧ ¬ (['a'] ++ [' ', 'b'] : List Char) = ['a', ' ', ' ', 'b'] := by
  decide

/-- C8 (amended): call-argument spans split exactly — with a colon present
the label sub-span and the colon/remainder sub-span are contiguous, in
order, and their concatenation is the original span; with no colon the
whole span is emitted as one combined range.  Parameter spans split at
*two* boundaries: the external label ends at the first separator while the
internal name starts at the last separator (at it when collapsible, after
it when noncollapsible), so the two sub-spans cover the original span
exactly iff the span is collapsible and its first separator is its last;
with no separator the whole span is the external label with a zero-length
name point at its end (collapsible) or the whole span is the internal name
with a zero-length label point at its start (noncollapsible). -/
theorem C8_label_splitting (r : MRange) (i : Nat) :
    (∀ c, r.text.findIdx? (fun ch => ch = ':') = some c →
      splitAndRenameCallArg r i =
        [RCall.labelCall ⟨r.start, r.text.take (callArgLabelLen r.text c)⟩
           RefactoringRangeKind.CallArgumentLabel i,
         RCall.labelCall
           ⟨r.start + (r.text.take (callArgLabelLen r.text c)).length,
            r.text.drop (callArgLabelLen r.text c)⟩
           RefactoringRangeKind.CallArgumentColon i] ∧
      r.text.take (callArgLabelLen r.text c) ++
        r.text.drop (callArgLabelLen r.text c) = r.text) ∧
    (r.text.findIdx? (fun ch => ch = ':') = none →
      splitAndRenameCallArg r i =
        [RCall.labelCall r RefactoringRangeKind.CallArgumentCombined i]) ∧
    (r.text.findIdx? isParamSeparatorChar = none →
      splitAndRenameParamLabel r i true =
        [RCall.labelCall r RefactoringRangeKind.DeclArgumentLabel i,
         RCall.labelCall ⟨r.start + r.text.length, []⟩
           RefactoringRangeKind.ParameterName i] ∧
      splitAndRenameParamLabel r i false =
        [RCall.labelCall ⟨r.start, []⟩
           RefactoringRangeKind.DeclArgumentLabel i,
         RCall.labelCall r
           RefactoringRangeKind.NoncollapsibleParameterName i]) ∧
    (∀ f co, r.text.findIdx? isParamSeparatorChar = some f →
      splitAndRenameParamLabel r i co =
        [RCall.labelCall ⟨r.start, r.text.take f⟩
           RefactoringRangeKind.DeclArgumentLabel i,
         RCall.labelCall
           ⟨r.start + (if co then paramLastSep r.text
              else paramLastSep r.text + 1),
            r.text.drop (if co then paramLastSep r.text
              else paramLastSep r.text + 1)⟩
           (if co then RefactoringRangeKind.ParameterName
            else RefactoringRangeKind.NoncollapsibleParameterName) i] ∧
      (r.text.take f ++
          r.text.drop (if co then paramLastSep r.text
            else paramLastSep r.text + 1) = r.text ↔
        co = true ∧ f = paramLastSep r.text)) := by
  refine ⟨?_, ?_, ?_, ?_⟩
  · intro c hc
    have hk : callArgLabelLen r.text c ≤ r.text.length := by
      calc callArgLabelLen r.text c
          ≤ (r.text.take c).reverse.length :=
            (List.dropWhile_sublist _).length_le
        _ = (r.text.take c).length := List.length_reverse _
        _ ≤ c := List.length_take_le _ _
        _ ≤ r.text.length := by
            obtain ⟨hlt, -, -⟩ := List.findIdx?_eq_some_iff_getElem.mp hc
            exact Nat.le_of_lt hlt
    have hlen : (r.text.take (callArgLabelLen r.text c)).length =
        callArgLabelLen r.text c := by
      rw [List.length_take]
      exact Nat.min_eq_left hk
    refine ⟨?_, List.take_append_drop _ _⟩
    rw [splitAndRenameCallArg_some r i c hc, hlen]
    simp [MRange.sub, drop_take_sub]
  · intro h
    simp only [splitAndRenameCallArg, h]
  · intro h
    constructor
    · simp only [splitAndRenameParamLabel, h, MRange.zeroAt, if_pos]
    · simp only [splitAndRenameParamLabel, h, MRange.zeroAt, Nat.add_zero,
        Bool.false_eq_true, if_false]
  · intro f co hf
    have hE := splitAndRenameParamLabel_some r i f co hf
    obtain ⟨hflt, hpf, hmin⟩ := List.findIdx?_eq_some_iff_getElem.mp hf
    have hrev : ∃ j, r.text.reverse.findIdx? isParamSeparatorChar = some j := by
      cases hj : r.text.reverse.findIdx? isParamSeparatorChar with
      | some j => exact ⟨j, rfl⟩
      | none =>
          have hall := List.findIdx?_eq_none_iff.mp hj
          have hmem : r.text[f] ∈ r.text.reverse := by
            rw [List.mem_reverse]
            exact List.getElem_mem hflt
          have hfalse := hall _ hmem
          rw [hpf] at hfalse
          cases hfalse
    obtain ⟨j, hj⟩ := hrev
    obtain ⟨hjlt, hpj, -⟩ := List.findIdx?_eq_some_iff_getElem.mp hj
    have hjlt' : j < r.text.length := by
      rwa [List.length_reverse] at hjlt
    have hL : paramLastSep r.text = r.text.length - 1 - j := by
      unfold paramLastSep
      rw [hj]
      rfl
    have hLlt : paramLastSep r.text < r.text.length := by
      rw [hL]
      omega
    have hpL : isParamSeparatorChar (r.text[r.text.length - 1 - j])
        = true := by
      rw [← List.getElem_reverse hjlt]
      exact hpj
    have hfle : f ≤ paramLastSep r.text := by
      rw [hL]
      by_contra hcon
      push_neg at hcon
      exact absurd hpL (hmin _ hcon)
    refine ⟨?_, ?_, ?_⟩
    · rw [hE]
      simp [MRange.sub, drop_take_sub]
    · intro hcov
      have hlenEq := congrArg List.length hcov
      rw [List.length_append, List.length_take, List.length_drop,
        Nat.min_eq_left (Nat.le_of_lt hflt)] at hlenEq
      cases co with
      | false =>
          exfalso
          simp only [Bool.false_eq_true, if_false] at hlenEq
          omega
      | true =>
          simp only [if_pos] at hlenEq
          exact ⟨rfl, by omega⟩
    · rintro ⟨hco, hfL⟩
      subst hco
      rw [if_pos rfl, hfL]
      exact List.take_append_drop _ _

/-- Witness for C8: splitting the call argument `"x :4"` at its colon
yields the right-trimmed label `"x"` and the remainder `" :4"`, contiguous
and covering the span exactly. -/
theorem C8_label_splitting_witness :
    splitAndRenameCallArg ⟨3, ['x', ' ', ':', '4']⟩ 2 =
      [RCall.labelCall ⟨3, ['x']⟩ RefactoringRangeKind.CallArgumentLabel 2,
       RCall.labelCall ⟨4, [' ', ':', '4']⟩
         RefactoringRangeKind.CallArgumentColon 2] := by
  have h := ((C8_label_splitting ⟨3, ['x', ' ', ':', '4']⟩ 2).1 2
    (by decide)).1
  exact h.trans (by decide)

/-! ## C9: idempotence of the edit emitter -/

/-- C9: rename is idempotent at the edit emitter.  `addReplacement` never
records a replacement whose new text equals the existing text of its span;
`doRenameBase` records no base replacement when the old and new base names
are equal; consequently re-running a rename in which every matched span
already carries the requested replacement text (`spanApplied`) produces
zero edits. -/
theorem C9_idempotent_rename (old new : DeclNameViewer) :
    (∀ (r : MRange) (k : RefactoringRangeKind) (oldL newL : List Char)
       (rep : Replacement), rep ∈ addReplacement r k oldL newL →
         ¬ rep.newText = rep.range.text) ∧
    (∀ (r : MRange) (k : RefactoringRangeKind), old.base = new.base →
       replacementsOfCall old new (RCall.baseCall r k) = []) ∧
    (∀ cs : List RCall, (∀ c ∈ cs, spanApplied old new c = true) →
       replacementsOfCalls old new cs = []) := by
  refine ⟨?_, ?_, ?_⟩
  · intro r k oldL newL rep hmem
    by_cases h : getReplacementText r.text k oldL newL = r.text
    · simp [addReplacement, h] at hmem
    · simp [addReplacement, h] at hmem
      simp [hmem, h]
  · intro r k h
    simp [replacementsOfCall, h]
  · intro cs
    induction cs with
    | nil => intro _; rfl
    | cons c rest ih =>
        intro hall
        have hc := hall c (List.mem_cons_self _ _)
        have hrest := ih (fun d hd => hall d (List.mem_cons_of_mem _ hd))
        have hstep : replacementsOfCalls old new (c :: rest) =
            replacementsOfCall old new c ++ replacementsOfCalls old new rest :=
          List.flatMap_cons ..
        rw [hstep, hrest, List.append_nil]
        cases c with
        | labelCall range kind index =>
            simp only [spanApplied, decide_eq_true_eq] at hc
            simp only [replacementsOfCall, addReplacement]
            rw [hc]
            simp
        | baseCall range kind =>
            simp only [spanApplied, decide_eq_true_eq] at hc
            simp [replacementsOfCall, hc]

/-- Witness for C9: re-running `foo(a:)` over the already-renamed call
site `foo(a: ...)` (label span `"a"`, colon span `": "`, base span
`"foo"`) emits zero edits. -/
theorem C9_idempotent_rename_witness :
    replacementsOfCalls ⟨['f','o','o'], [['a']]⟩ ⟨['f','o','o'], [['a']]⟩
      [RCall.labelCall ⟨4, ['a']⟩ RefactoringRangeKind.CallArgumentLabel 0,
       RCall.labelCall ⟨5, [':', ' ']⟩
         RefactoringRangeKind.CallArgumentColon 0,
       RCall.baseCall ⟨0, ['f','o','o']⟩ RefactoringRangeKind.BaseName] =
      [] := by
  exact (C9_idempotent_rename ⟨['f','o','o'], [['a']]⟩
    ⟨['f','o','o'], [['a']]⟩).2.2 _ (by decide)

/-! ## C3: completion-handler detection -/

/-- C3 counterexample: a handler whose `Void`-returning function type has
two parameters, the first of `Result` type, is rejected (INVALID) by
`AsyncHandlerDesc::get`, while the claim predicts a `PARAMS` descriptor
over the full parameter list (the name test passes here, so the rejection
is due solely to the `Result`-typed parameter). -/
theorem C3_counterexample :
    AsyncHandlerParamDescM.find (fun _ => true)
      ⟨false, false, false,
       [⟨['c'], MTy.fnTy
          [MTy.resultTy MTy.voidTy (MTy.namedTy ['E'] true false),
           MTy.namedTy ['I'] false false] MTy.voidTy, false⟩],
       MTy.voidTy⟩ true =
      ⟨⟨HandlerType.INVALID, false⟩, 0⟩ ∧
    ¬ (AsyncHandlerParamDescM.find (fun _ => true)
      ⟨false, false, false,
       [⟨['c'], MTy.fnTy
          [MTy.resultTy MTy.voidTy (MTy.namedTy ['E'] true false),
           MTy.namedTy ['I'] false false] MTy.voidTy, false⟩],
       MTy.voidTy⟩ true).desc.type = HandlerType.PARAMS := by
  decide

/-- C3 (amended): `AsyncHandlerParamDesc::find` rejects a function that is
already `async` or `throws`, has zero parameters or a non-`Void` result,
or whose last parameter is `@autoclosure`; otherwise it classifies that
last parameter via `AsyncHandlerDesc::get` (dropping the name requirement
when the completion-handler attribute is present) and records its index.
`get` additionally rejects when the name requirement is active and the
handler name fails the completion-name test; the handler type must be a
`Void`-returning function type; exactly one parameter of `Result` type
gives `RESULT` with `hasError` iff the failure argument is inhabited;
otherwise any `Result`-typed parameter rejects, and else the kind is
`PARAMS` with `hasError` iff the last parameter's type, stripped of one
optionality level, conforms to `Error`. -/
theorem C3_handler_detection (nameOk : List Char → Bool) (fd : MFuncDecl)
    (req : Bool) (nm : List Char) (ty : MTy) (rn : Bool) :
    (fd.hasAsync = true ∨ fd.hasThrows = true →
      AsyncHandlerParamDescM.find nameOk fd req = {}) ∧
    (fd.params.length = 0 ∨ fd.resultTy.isVoid = false →
      AsyncHandlerParamDescM.find nameOk fd req = {}) ∧
    (∀ p, fd.params.getLast? = some p → p.isAutoClosure = true →
      AsyncHandlerParamDescM.find nameOk fd req = {}) ∧
    (fd.hasAsync = false → fd.hasThrows = false →
      fd.resultTy.isVoid = true →
      ∀ p, fd.params.getLast? = some p → p.isAutoClosure = false →
      AsyncHandlerParamDescM.find nameOk fd req =
        ⟨AsyncHandlerDescM.get nameOk (MValueDecl.varDecl p.name p.ty)
           (if req ∧ fd.hasCompletionHandlerAsyncAttr then false else req),
         Int.ofNat (fd.params.length - 1)⟩) ∧
    (rn = true → nameOk nm = false →
      AsyncHandlerDescM.get nameOk (MValueDecl.varDecl nm ty) rn = {}) ∧
    (rn = false ∨ nameOk nm = true →
      (ty.getAsFunction = none →
        AsyncHandlerDescM.get nameOk (MValueDecl.varDecl nm ty) rn = {}) ∧
      (∀ ps res, ty.getAsFunction = some (ps, res) →
        (res.isVoid = false →
          AsyncHandlerDescM.get nameOk (MValueDecl.varDecl nm ty) rn = {}) ∧
        (res.isVoid = true →
          (∀ s f, ps = [MTy.resultTy s f] →
            AsyncHandlerDescM.get nameOk (MValueDecl.varDecl nm ty) rn =
              ⟨HandlerType.RESULT, ¬ f.isUninhabited⟩) ∧
          (isSingleResult ps = false →
            (ps.any MTy.isResult = true →
              AsyncHandlerDescM.get nameOk (MValueDecl.varDecl nm ty) rn
                = {}) ∧
            (ps.any MTy.isResult = false →
              AsyncHandlerDescM.get nameOk (MValueDecl.varDecl nm ty) rn =
                ⟨HandlerType.PARAMS,
                 match ps.getLast? with
                 | none => false
                 | some last =>
                     isErrorTypeM last.getOptionalObjectType⟩))))) := by
  refine ⟨?_, ?_, ?_, ?_, ?_, ?_⟩
  · intro h
    unfold AsyncHandlerParamDescM.find
    rcases h with h | h <;> simp [h]
  · intro h
    unfold AsyncHandlerParamDescM.find
    by_cases ha : fd.hasAsync ∨ fd.hasThrows
    · simp [ha]
    · rcases h with h | h <;> simp [ha, h]
  · intro p hp hauto
    unfold AsyncHandlerParamDescM.find
    by_cases ha : fd.hasAsync ∨ fd.hasThrows
    · simp [ha]
    · by_cases hz : fd.params.length = 0 ∨ ¬ fd.resultTy.isVoid
      · rcases hz with h | h <;> simp [ha, h]
      · simp [ha, hz, hp, hauto]
  · intro h1 h2 h3 p hp hauto
    have hne : ¬ fd.params.length = 0 := by
      intro h0
      rw [List.length_eq_zero.mp h0] at hp
      simp at hp
    unfold AsyncHandlerParamDescM.find
    simp [h1, h2, h3, hne, hp, hauto]
  · intro hrn hname
    simp [AsyncHandlerDescM.get, MValueDecl.nameStr, hrn, hname]
  · intro hcond
    have hguard : ¬ (rn = true ∧ ¬ nameOk nm = true) := by
      rcases hcond with h | h
      · rintro ⟨hr, -⟩
        rw [h] at hr
        cases hr
      · rintro ⟨-, hn⟩
        exact hn h
    refine ⟨?_, ?_⟩
    · intro hfn
      simp [AsyncHandlerDescM.get, MValueDecl.handlerType,
        MValueDecl.nameStr, hguard, hfn]
    · intro ps res hfn
      refine ⟨?_, ?_⟩
      · intro hres
        simp [AsyncHandlerDescM.get, MValueDecl.handlerType,
          MValueDecl.nameStr, hguard, hfn, hres]
      · intro hres
        refine ⟨?_, ?_⟩
        · intro s f hps
          subst hps
          simp only [AsyncHandlerDescM.get, MValueDecl.nameStr,
            MValueDecl.handlerType, hfn, hres]
          rw [if_neg hguard]
          simp
        · intro hsing
          constructor <;>
            · intro hany
              rcases ps with _ | ⟨hd, _ | ⟨h2, t2⟩⟩
              · simp only [AsyncHandlerDescM.get, MValueDecl.nameStr,
                  MValueDecl.handlerType, hfn, hres, hany]
                rw [if_neg hguard]
                simp
              · cases hd with
                | resultTy s f => exact absurd hsing (by simp [isSingleResult])
                | voidTy =>
                    simp only [AsyncHandlerDescM.get, MValueDecl.nameStr,
                      MValueDecl.handlerType, hfn, hres, hany]
                    rw [if_neg hguard]
                    simp
                | namedTy n e u =>
                    simp only [AsyncHandlerDescM.get, MValueDecl.nameStr,
                      MValueDecl.handlerType, hfn, hres, hany]
                    rw [if_neg hguard]
                    simp
                | optionalTy t =>
                    simp only [AsyncHandlerDescM.get, MValueDecl.nameStr,
                      MValueDecl.handlerType, hfn, hres, hany]
                    rw [if_neg hguard]
                    simp
                | fnTy ps2 r2 =>
                    simp only [AsyncHandlerDescM.get, MValueDecl.nameStr,
                      MValueDecl.handlerType, hfn, hres, hany]
                    rw [if_neg hguard]
                    simp
              · simp only [AsyncHandlerDescM.get, MValueDecl.nameStr,
                  MValueDecl.handlerType, hfn, hres, hany]
                rw [if_neg hguard]
                simp

/-- Witness for C3: a one-parameter function taking a completion handler
of type `(E?) -> Void` (E conforming to `Error`) yields a `PARAMS`
descriptor with `hasError` and index 0. -/
theorem C3_handler_detection_witness :
    AsyncHandlerParamDescM.find (fun n => decide (n = ['c']))
      ⟨false, false, false,
       [⟨['c'], MTy.fnTy [MTy.optionalTy (MTy.namedTy ['E'] true false)]
          MTy.voidTy, false⟩], MTy.voidTy⟩ true =
      ⟨⟨HandlerType.PARAMS, true⟩, 0⟩ := by
  have h := (C3_handler_detection (fun n => decide (n = ['c']))
      ⟨false, false, false,
       [⟨['c'], MTy.fnTy [MTy.optionalTy (MTy.namedTy ['E'] true false)]
          MTy.voidTy, false⟩], MTy.voidTy⟩ true ['c']
      (MTy.fnTy [MTy.optionalTy (MTy.namedTy ['E'] true false)] MTy.voidTy)
      true).2.2.2.1 rfl rfl (by decide) _ rfl rfl
  exact h.trans (by decide)


/-! ## C6: PARAMS fallback and RESULT abort -/

/-- C6 counterexample: a PARAMS-convention closure whose classification
raises a diagnostic falls back, but the fallback does *not* keep all
original parameter names: with `x` already in scope, the parameter named
`x` is renamed to `x1`, and the declared fallback var line is
`var x1: T? = nil` — refuting the claim's "all original closure parameter
names are kept". -/
theorem C6_counterexample :
    ((hoistClassified 10
        ⟨HandlerType.PARAMS, true,
         [MTy.optionalTy (MTy.namedTy ['T'] false false),
          MTy.optionalTy (MTy.namedTy ['E'] true false)]⟩
        [⟨0, ['x'], MTy.optionalTy (MTy.namedTy ['T'] false false)⟩,
         ⟨1, ['e'], MTy.optionalTy (MTy.namedTy ['E'] true false)⟩]
        (MBraceStmt.mk
          [MNode.ifStmt (some 50)
            [MCondElem.patC (MPattern.optionalSomeP
               (some ⟨true, true, ['e'], some 101⟩)) (MInit.initRef 1),
             MCondElem.boolC MExpr.otherE]
            (MBranch.braceB (MBraceStmt.mk [] none true))
            (some (MBranch.braceB (MBraceStmt.mk [] none true)))] none true)
        ⟨⟨[], [[['x']]]⟩, {}, [], []⟩).diag.hadAnyError = true) ∧
    ((addHoistedClosureCallback 10 ⟨some 1, ['f'], []⟩
        ⟨HandlerType.PARAMS, true,
         [MTy.optionalTy (MTy.namedTy ['T'] false false),
          MTy.optionalTy (MTy.namedTy ['E'] true false)]⟩
        [⟨0, ['x'], MTy.optionalTy (MTy.namedTy ['T'] false false)⟩,
         ⟨1, ['e'], MTy.optionalTy (MTy.namedTy ['E'] true false)⟩]
        (MBraceStmt.mk
          [MNode.ifStmt (some 50)
            [MCondElem.patC (MPattern.optionalSomeP
               (some ⟨true, true, ['e'], some 101⟩)) (MInit.initRef 1),
             MCondElem.boolC MExpr.otherE]
            (MBranch.braceB (MBraceStmt.mk [] none true))
            (some (MBranch.braceB (MBraceStmt.mk [] none true)))] none true)
        ⟨⟨[], [[['x']]]⟩, {}, [], []⟩).out.head?.map
      (fun c => match c with | Chunk.strC t => t | _ => []) =
      some "var x1: T? = nil\n".data) ∧
    ¬ (['x', '1'] : List Char) = ['x'] := by
  refine ⟨by decide, by decide, by decide⟩


/-- C6 (amended): when classification of the literal closure left a
diagnostic, a non-PARAMS (RESULT) convention aborts — the state keeps the
diagnostic and emits nothing — while the PARAMS convention clears the
error flag and emits the permissive fallback: one optional `var` per
parameter initialised to `nil` (named by `prepareNames`, which uniquifies
against the current scope rather than keeping the original names), a
`do`, the awaited call assigned to those parameters, a `catch` assigning
the error parameter, and the original closure body reprinted. -/
theorem C6_fallback_and_abort (fuel : Nat) (ce : MCallExpr)
    (hd : MHandlerDescC) (cps : List MClosureParam) (body : MBraceStmt)
    (st : ConvState)
    (hlen : hd.params.length = cps.length)
    (herr : (hoistClassified fuel hd cps body st).diag.hadAnyError = true) :
    (¬ hd.type = HandlerType.PARAMS →
      addHoistedClosureCallback fuel ce hd cps body st =
        { st with
          diag := (hoistClassified fuel hd cps body st).diag
          handledSwitches :=
            (hoistClassified fuel hd cps body st).handledSwitches }) ∧
    (hd.type = HandlerType.PARAMS →
      addHoistedClosureCallback fuel ce hd cps body st =
        { names := clearNames (prepareNames st.names {} cps)
            (cps.map fun p => p.id),
          diag := { (hoistClassified fuel hd cps body st).diag with
            hadAnyError := false },
          handledSwitches :=
            (hoistClassified fuel hd cps body st).handledSwitches,
          out := st.out ++
            (addFallbackVars (prepareNames st.names {} cps) cps ++
             addDo ++
             addAwaitCall (prepareNames st.names {} cps) ce
               (hoistClassified fuel hd cps body st).success
               (hoistSuccessParams hd cps) hd (¬ hd.hasError) ++
             addFallbackCatch (prepareNames st.names {} cps)
               ((hoistErrParam hd cps).map fun p => p.id) ++
             [Chunk.strC "\n".data,
              Chunk.convertedAll (MNodesToPrint.inBraceStmt body)]) }) := by
  constructor
  · intro hty
    simp [addHoistedClosureCallback, hlen, herr, hty]
  · intro hty
    simp [addHoistedClosureCallback, hlen, herr, hty]


/-- Witness for C6: the PARAMS fallback branch of the amended theorem at
the concrete failing-classification input. -/
theorem C6_fallback_and_abort_witness :
    addHoistedClosureCallback 10 ⟨some 1, ['f'], []⟩
      ⟨HandlerType.PARAMS, true,
       [MTy.optionalTy (MTy.namedTy ['T'] false false),
        MTy.optionalTy (MTy.namedTy ['E'] true false)]⟩
      [⟨0, ['x'], MTy.optionalTy (MTy.namedTy ['T'] false false)⟩,
       ⟨1, ['e'], MTy.optionalTy (MTy.namedTy ['E'] true false)⟩]
      (MBraceStmt.mk
        [MNode.ifStmt (some 50)
          [MCondElem.patC (MPattern.optionalSomeP
             (some ⟨true, true, ['e'], some 101⟩)) (MInit.initRef 1),
           MCondElem.boolC MExpr.otherE]
          (MBranch.braceB (MBraceStmt.mk [] none true))
          (some (MBranch.braceB (MBraceStmt.mk [] none true)))] none true)
      ⟨⟨[], [[['x']]]⟩, {}, [], []⟩ =
      { names := clearNames
          (prepareNames ⟨[], [[['x']]]⟩ {}
            [⟨0, ['x'], MTy.optionalTy (MTy.namedTy ['T'] false false)⟩,
             ⟨1, ['e'], MTy.optionalTy (MTy.namedTy ['E'] true false)⟩])
          [0, 1],
        diag := { (hoistClassified 10
            ⟨HandlerType.PARAMS, true,
             [MTy.optionalTy (MTy.namedTy ['T'] false false),
              MTy.optionalTy (MTy.namedTy ['E'] true false)]⟩
            [⟨0, ['x'], MTy.optionalTy (MTy.namedTy ['T'] false false)⟩,
             ⟨1, ['e'], MTy.optionalTy (MTy.namedTy ['E'] true false)⟩]
            (MBraceStmt.mk
              [MNode.ifStmt (some 50)
                [MCondElem.patC (MPattern.optionalSomeP
                   (some ⟨true, true, ['e'], some 101⟩)) (MInit.initRef 1),
                 MCondElem.boolC MExpr.otherE]
                (MBranch.braceB (MBraceStmt.mk [] none true))
                (some (MBranch.braceB
                  (MBraceStmt.mk [] none true)))] none true)
            ⟨⟨[], [[['x']]]⟩, {}, [], []⟩).diag with hadAnyError := false },
        handledSwitches := (hoistClassified 10
            ⟨HandlerType.PARAMS, true,
             [MTy.optionalTy (MTy.namedTy ['T'] false false),
              MTy.optionalTy (MTy.namedTy ['E'] true false)]⟩
            [⟨0, ['x'], MTy.optionalTy (MTy.namedTy ['T'] false false)⟩,
             ⟨1, ['e'], MTy.optionalTy (MTy.namedTy ['E'] true false)⟩]
            (MBraceStmt.mk
              [MNode.ifStmt (some 50)
                [MCondElem.patC (MPattern.optionalSomeP
                   (some ⟨true, true, ['e'], some 101⟩)) (MInit.initRef 1),
                 MCondElem.boolC MExpr.otherE]
                (MBranch.braceB (MBraceStmt.mk [] none true))
                (some (MBranch.braceB
                  (MBraceStmt.mk [] none true)))] none true)
            ⟨⟨[], [[['x']]]⟩, {}, [], []⟩).handledSwitches,
        out := [] ++
          (addFallbackVars
            (prepareNames ⟨[], [[['x']]]⟩ {}
              [⟨0, ['x'], MTy.optionalTy (MTy.namedTy ['T'] false false)⟩,
               ⟨1, ['e'], MTy.optionalTy (MTy.namedTy ['E'] true false)⟩])
            [⟨0, ['x'], MTy.optionalTy (MTy.namedTy ['T'] false false)⟩,
             ⟨1, ['e'], MTy.optionalTy (MTy.namedTy ['E'] true false)⟩] ++
           addDo ++
           addAwaitCall
             (prepareNames ⟨[], [[['x']]]⟩ {}
               [⟨0, ['x'], MTy.optionalTy (MTy.namedTy ['T'] false false)⟩,
                ⟨1, ['e'], MTy.optionalTy (MTy.namedTy ['E'] true false)⟩])
             ⟨some 1, ['f'], []⟩
             (hoistClassified 10
               ⟨HandlerType.PARAMS, true,
                [MTy.optionalTy (MTy.namedTy ['T'] false false),
                 MTy.optionalTy (MTy.namedTy ['E'] true false)]⟩
               [⟨0, ['x'], MTy.optionalTy (MTy.namedTy ['T'] false false)⟩,
                ⟨1, ['e'], MTy.optionalTy (MTy.namedTy ['E'] true false)⟩]
               (MBraceStmt.mk
                 [MNode.ifStmt (some 50)
                   [MCondElem.patC (MPattern.optionalSomeP
                      (some ⟨true, true, ['e'], some 101⟩))
                     (MInit.initRef 1),
                    MCondElem.boolC MExpr.otherE]
                   (MBranch.braceB (MBraceStmt.mk [] none true))
                   (some (MBranch.braceB
                     (MBraceStmt.mk [] none true)))] none true)
               ⟨⟨[], [[['x']]]⟩, {}, [], []⟩).success
             (hoistSuccessParams
               ⟨HandlerType.PARAMS, true,
                [MTy.optionalTy (MTy.namedTy ['T'] false false),
                 MTy.optionalTy (MTy.namedTy ['E'] true false)]⟩
               [⟨0, ['x'], MTy.optionalTy (MTy.namedTy ['T'] false false)⟩,
                ⟨1, ['e'], MTy.optionalTy (MTy.namedTy ['E'] true false)⟩])
             ⟨HandlerType.PARAMS, true,
              [MTy.optionalTy (MTy.namedTy ['T'] false false),
               MTy.optionalTy (MTy.namedTy ['E'] true false)]⟩
             (¬ (true : Bool)) ++
           addFallbackCatch
             (prepareNames ⟨[], [[['x']]]⟩ {}
               [⟨0, ['x'], MTy.optionalTy (MTy.namedTy ['T'] false false)⟩,
                ⟨1, ['e'], MTy.optionalTy (MTy.namedTy ['E'] true false)⟩])
             ((hoistErrParam
               ⟨HandlerType.PARAMS, true,
                [MTy.optionalTy (MTy.namedTy ['T'] false false),
                 MTy.optionalTy (MTy.namedTy ['E'] true false)]⟩
               [⟨0, ['x'], MTy.optionalTy (MTy.namedTy ['T'] false false)⟩,
                ⟨1, ['e'], MTy.optionalTy
                  (MTy.namedTy ['E'] true false)⟩]).map fun p => p.id) ++
           [Chunk.strC "\n".data,
            Chunk.convertedAll (MNodesToPrint.inBraceStmt
              (MBraceStmt.mk
                [MNode.ifStmt (some 50)
                  [MCondElem.patC (MPattern.optionalSomeP
                     (some ⟨true, true, ['e'], some 101⟩))
                    (MInit.initRef 1),
                   MCondElem.boolC MExpr.otherE]
                  (MBranch.braceB (MBraceStmt.mk [] none true))
                  (some (MBranch.braceB
                    (MBraceStmt.mk [] none true)))] none true))]) } := by
  exact (C6_fallback_and_abort 10 ⟨some 1, ['f'], []⟩
    ⟨HandlerType.PARAMS, true,
     [MTy.optionalTy (MTy.namedTy ['T'] false false),
      MTy.optionalTy (MTy.namedTy ['E'] true false)]⟩
    [⟨0, ['x'], MTy.optionalTy (MTy.namedTy ['T'] false false)⟩,
     ⟨1, ['e'], MTy.optionalTy (MTy.namedTy ['E'] true false)⟩]
    (MBraceStmt.mk
      [MNode.ifStmt (some 50)
        [MCondElem.patC (MPattern.optionalSomeP
           (some ⟨true, true, ['e'], some 101⟩)) (MInit.initRef 1),
         MCondElem.boolC MExpr.otherE]
        (MBranch.braceB (MBraceStmt.mk [] none true))
        (some (MBranch.braceB (MBraceStmt.mk [] none true)))] none true)
    ⟨⟨[], [[['x']]]⟩, {}, [], []⟩ (by decide) (by decide)).2 rfl

/-! ## C1: lenient two-phase label matching -/

/-- The emitting trailing step agrees with the plain one on the remaining
old labels. -/
theorem lenientTrailingStepEmit_fst (old : List (List Char)) (label : MRange)
    (z : Bool) :
    (lenientTrailingStepEmit old label z).map Prod.fst =
      lenientTrailingStep old label.text z := by
  unfold lenientTrailingStepEmit lenientTrailingStep
  by_cases h : label.text.length ≠ 0
  · simp only [if_pos h]
    cases hs : scanBackDrop
        (fun o => labelRangeMatches label.text LabelRangeType.Selector o)
        old <;> simp [hs]
  · simp only [if_neg h]
    by_cases hz : ¬ z = true
    · simp only [if_pos hz]
      cases hs : scanBackDrop (fun o => o.isEmpty) old <;> simp [hs]
    · simp only [if_neg hz]
      simp

/-- The emitting trailing loop agrees with the plain one on the remaining
old labels. -/
theorem lenientTrailingLoopEmit_fst :
    ∀ (rlabels : List MRange) (old : List (List Char)),
      (lenientTrailingLoopEmit old rlabels).map Prod.fst =
        lenientTrailingLoop old (rlabels.map (fun r => r.text))
  | [], old => rfl
  | [label], old => by
      simp only [lenientTrailingLoopEmit, lenientTrailingLoop, List.map_cons,
        List.map_nil]
      exact lenientTrailingStepEmit_fst old label true
  | label :: l2 :: rest, old => by
      simp only [lenientTrailingLoopEmit, lenientTrailingLoop, List.map_cons]
      have hstep := lenientTrailingStepEmit_fst old label false
      cases hs : lenientTrailingStepEmit old label false with
      | none =>
          rw [hs] at hstep
          rw [← hstep]
          rfl
      | some pr =>
          rw [hs] at hstep
          rw [← hstep]
          have hrec2 := lenientTrailingLoopEmit_fst (l2 :: rest) pr.1
          simp only [List.map_cons] at hrec2
          simp only [Option.map_some, ← hrec2]
          cases hrec : lenientTrailingLoopEmit pr.1 (l2 :: rest) <;>
            (simp [hrec]; rw [← hrec2, hrec]; rfl)

/-- The index-based front phase of the source equals the remaining-list
formulation `lenientFrontRemaining`; the running `NameIndex` is zero
exactly while no label has consumed an old name, i.e. for the first
label. -/
theorem lenientFrontLoop_eq_remaining (old : List (List Char))
    (ty : LabelRangeType) :
    ∀ (labels : List MRange) (i : Nat),
      (lenientFrontLoop old ty labels i).1 =
        lenientFrontRemaining ty labels (old.drop i) (decide (i = 0)) := by
  intro labels
  induction labels with
  | nil => intro i; rfl
  | cons label rest ih =>
      intro i
      by_cases hlen : label.text.length = 0
      · by_cases hi : i = 0
        · subst hi
          cases h : old.findIdx? (fun o => o.isEmpty) with
          | none =>
              simp [lenientFrontLoop, lenientFrontRemaining, hlen,
                scanFrom, h]
          | some j =>
              simp [lenientFrontLoop, lenientFrontRemaining, hlen,
                scanFrom, h, ih]
        · have hdec : decide (i = 0) = false := decide_eq_false hi
          cases hrem : old.drop i with
          | nil =>
              have hge : old.length ≤ i := List.drop_eq_nil_iff.mp hrem
              simp [lenientFrontLoop, lenientFrontRemaining, hlen, hi,
                hge, hdec, hrem, ih]
          | cons o rem' =>
              have hlt : i < old.length := by
                by_contra hc
                push_neg at hc
                rw [List.drop_eq_nil_iff.mpr hc] at hrem
                cases hrem
              have hget2 : old[i]? = some o := by
                rw [← List.head?_drop, hrem]
                rfl
              have hdrop1 : old.drop (i + 1) = rem' := by
                have : old.drop (i + 1) = (old.drop i).drop 1 := by
                  rw [List.drop_drop]
                rw [this, hrem]
                rfl
              by_cases ho : o.isEmpty = true
              · have ho' : o = [] := List.isEmpty_iff.mp ho
                simp [lenientFrontLoop, lenientFrontRemaining, hlen, hi,
                  hget2, ho, ho', hdec, hrem, hdrop1, ih,
                  Nat.not_le.mpr hlt]
              · have ho' : ¬ o = [] := by
                  simpa [List.isEmpty_iff] using ho
                simp [lenientFrontLoop, lenientFrontRemaining, hlen, hi,
                  hget2, ho, ho', hdec, hrem, ih, Nat.not_le.mpr hlt]
      · cases h : (old.drop i).findIdx?
            (fun o => labelRangeMatches label.text ty o) with
        | none =>
            have hs : scanFrom old
                (fun o => labelRangeMatches label.text ty o) i = none := by
              simp [scanFrom, h]
            simp [lenientFrontLoop, lenientFrontRemaining, hlen, hs, h]
        | some j =>
            have hs : scanFrom old
                (fun o => labelRangeMatches label.text ty o) i =
                some (i + j) := by
              simp [scanFrom, h]
            have hdrop : old.drop (i + j + 1) = (old.drop i).drop (j + 1) :=
              by rw [List.drop_drop, Nat.add_assoc]
            simp [lenientFrontLoop, lenientFrontRemaining, hlen, hs, h, ih,
              hdrop]

/-- C1 counterexample: lenient matching of a single empty-labelled call
argument against the old name `foo(a:)` is a *mismatch* — the front phase
scans the old labels for a first empty one and aborts when none exists —
whereas the claim's rule (an empty argument label is skipped when the old
label is non-empty) predicts a successful match, as witnessed by the
claim-rule evaluation (`isFirst = false`) on the same input. -/
theorem C1_counterexample :
    (renameLabelsLenient [['a']] [⟨0, []⟩] none LabelRangeType.CallArg).1 =
      true ∧
    lenientFrontRemaining LabelRangeType.CallArg [⟨0, []⟩] [['a']] false =
      false := by
  refine ⟨by decide, by decide⟩

/-- C1 (amended): lenient call-site matching proceeds in two phases —
trailing-closure labels are matched against the old labels from the back
in reverse syntactic order, then the remaining labels are matched against
the remaining old labels from the front, where the *first* empty argument
label consumes the first remaining empty old label (skipping non-empty
ones) and mismatches when there is none, a later empty argument label is
consumed against the next old label only if that old label is itself
empty (otherwise skipped as a variadic/defaulted slot), and a non-empty
argument label consumes the next matching remaining old label, mismatching
when none remains. -/
theorem C1_lenient_two_phase (old : List (List Char))
    (labelRanges : List MRange) (firstTrailingLabel : Option Nat)
    (ty : LabelRangeType) :
    (renameLabelsLenient old labelRanges firstTrailingLabel ty).1 =
      renameLabelsLenientSpec old labelRanges firstTrailingLabel ty := by
  cases firstTrailingLabel with
  | none =>
      simp only [renameLabelsLenient, renameLabelsLenientSpec, Option.getD,
        List.drop_length, List.reverse_nil, List.map_nil,
        lenientTrailingLoop, List.take_length]
      have h := lenientFrontLoop_eq_remaining old ty labelRanges 0
      rw [h]
      simp
  | some k =>
      simp only [renameLabelsLenient, renameLabelsLenientSpec, Option.getD]
      have hb := lenientTrailingLoopEmit_fst (labelRanges.drop k).reverse old
      cases hE : lenientTrailingLoopEmit old (labelRanges.drop k).reverse with
      | none =>
          rw [hE] at hb
          rw [← hb]
          rfl
      | some pr =>
          rw [hE] at hb
          rw [← hb]
          simp only [Option.map_some]
          have h := lenientFrontLoop_eq_remaining pr.1 ty
            (labelRanges.take k) 0
          rw [h]
          simp
